import Mathlib

set_option maxHeartbeats 1000000
set_option maxRecDepth 10000

namespace PolicyCheck

/- ===================== Data model (extension/src/shared/types.ts) ===================== -/

/-- Confidence level for one extracted policy field (types.ts PolicyConfidence values). -/
inductive ConfidenceLevel
  | low
  | medium
  | high
  deriving DecidableEq, Repr

/-- The five optional extracted policy fields (types.ts PolicyFields); a missing
field is modelled as `none`. -/
structure PolicyFields where
  returnWindow : Option String
  conditionRequirements : Option String
  fees : Option String
  returnShipping : Option String
  exclusions : Option String
  deriving DecidableEq, Repr

/-- Per-field confidence, parallel to PolicyFields (types.ts PolicyConfidence). -/
structure PolicyConfidence where
  returnWindow : ConfidenceLevel
  conditionRequirements : ConfidenceLevel
  fees : ConfidenceLevel
  returnShipping : ConfidenceLevel
  exclusions : ConfidenceLevel
  deriving DecidableEq, Repr

/-- A completed policy summary (types.ts PolicySummary); `extractedAt` carries the
ISO timestamp string produced at creation time. -/
structure PolicySummary where
  storeDomain : String
  policyUrl : String
  extractedAt : String
  fields : PolicyFields
  confidence : PolicyConfidence
  rawTextSnippet : String
  deriving DecidableEq, Repr

/-- The five keys shared by PolicyFields and PolicyConfidence. -/
inductive FieldKey
  | returnWindow
  | conditionRequirements
  | fees
  | returnShipping
  | exclusions
  deriving DecidableEq, Repr

/-- Look up a PolicyFields entry by key. -/
def PolicyFields.get (f : PolicyFields) : FieldKey → Option String
  | .returnWindow => f.returnWindow
  | .conditionRequirements => f.conditionRequirements
  | .fees => f.fees
  | .returnShipping => f.returnShipping
  | .exclusions => f.exclusions

/-- Look up a PolicyConfidence entry by key. -/
def PolicyConfidence.get (c : PolicyConfidence) : FieldKey → ConfidenceLevel
  | .returnWindow => c.returnWindow
  | .conditionRequirements => c.conditionRequirements
  | .fees => c.fees
  | .returnShipping => c.returnShipping
  | .exclusions => c.exclusions

/- ===================== Cache layer (src/unnamed/part_011) ===================== -/

/-- A cache entry as stored in chrome.storage.local (part_011 CacheEntry). -/
structure CacheEntry where
  summary : PolicySummary
  cachedAt : Nat
  ttl : Nat
  deriving DecidableEq, Repr

/-- Namespacing key prelude for cache entries (part_011 CACHE_PREFIX). -/
def CACHE_PREFIX : String := "cache:"

/-- Default cache lifetime in milliseconds (part_011 DEFAULT_TTL_MS). -/
def DEFAULT_TTL_MS : Nat := 24 * 60 * 60 * 1000

/-- Byte threshold above which a write first sweeps expired entries
(part_011 STORAGE_PRUNE_THRESHOLD). -/
def STORAGE_PRUNE_THRESHOLD : Nat := 8 * 1024 * 1024

/-- The key-value storage backing the cache: chrome.storage.local modelled as a
total map from keys to optional entries. -/
def Storage : Type := String → Option CacheEntry

/-- Sweep removing every expired entry under the cache key space
(part_011 pruneExpiredEntries); Date.now() enters as `now`. -/
def pruneExpiredEntries (st : Storage) (now : Nat) : Storage :=
  fun k =>
    match st k with
    | none => none
    | some e => if k.startsWith CACHE_PREFIX && decide (now > e.cachedAt + e.ttl) then none else some e

/-- Read path of the cache (part_011 getCachedSummary): returns the summary only
if not expired, lazily deleting an expired entry; the possibly-updated storage is
returned alongside the result. -/
def getCachedSummary (st : Storage) (now : Nat) (domain : String) :
    Option PolicySummary × Storage :=
  let key := CACHE_PREFIX ++ domain
  match st key with
  | none => (none, st)
  | some entry =>
    if now > entry.cachedAt + entry.ttl then
      (none, fun k => if k = key then none else st k)
    else
      (some entry.summary, st)

/-- Write path of the cache (part_011 setCachedSummary): prune first when the
reported byte usage exceeds the threshold, then store the entry stamped `now`. -/
def setCachedSummary (st : Storage) (now : Nat) (bytesUsed : Nat) (domain : String)
    (summary : PolicySummary) (ttlMs : Nat) : Storage :=
  let st1 := if bytesUsed > STORAGE_PRUNE_THRESHOLD then pruneExpiredEntries st now else st
  let key := CACHE_PREFIX ++ domain
  fun k => if k = key then some ⟨summary, now, ttlMs⟩ else st1 k

/- ===================== Candidate resolver (extension/src/shared/policyResolver.ts) ===================== -/

/-- Canonical refund-policy route (policyResolver.ts CANONICAL_PATHS.refund). -/
def CANONICAL_REFUND_PATH : String := "/policies/refund-policy"

/-- Known alternate refund-policy routes (policyResolver.ts ALTERNATE_PATHS.refund). -/
def ALTERNATE_REFUND_PATHS : List String :=
  ["/pages/returnpolicy", "/pages/refund-policy", "/pages/return-policy"]

/-- First-occurrence de-duplication; generic core of policyResolver.ts dedupeUrls,
whose JS `Array.from(new Set(urls))` keeps the first occurrence of each element
in insertion order. -/
def dedupeKeepFirst {α : Type} [DecidableEq α] (seen : List α) : List α → List α
  | [] => []
  | u :: rest =>
    if u ∈ seen then dedupeKeepFirst seen rest
    else u :: dedupeKeepFirst (u :: seen) rest

/-- De-duplicate a URL list preserving first-occurrence order
(policyResolver.ts dedupeUrls). -/
def dedupeUrls (urls : List String) : List String := dedupeKeepFirst [] urls

/-- Candidate URLs from canonical plus alternate routes for the refund policy
(policyResolver.ts buildCandidateUrls with key "refund"). -/
def buildCandidateUrls (base : String) : List String :=
  (base ++ CANONICAL_REFUND_PATH) :: ALTERNATE_REFUND_PATHS.map (fun p => base ++ p)

/-- Refund-candidate assembly of resolvePolicyUrls (policyResolver.ts lines 30-45).
The footer scan and help-center expansion run against the live DOM, so their
already-expanded output enters as the parameter `footerCandidates`; the canonical
route candidates are placed first, then everything is de-duplicated. -/
def resolveRefundCandidates (base : String) (footerCandidates : List String) : List String :=
  dedupeUrls (buildCandidateUrls base ++ footerCandidates)

/- ===================== Text normalizer (spec 4.1; helpers referenced by extract.ts) ===================== -/

/-- Whitespace test used throughout the normalizer. -/
def isWsChar (c : Char) : Bool := c = ' ' || c = '\t' || c = '\n' || c = '\r'

/-- JS slice from zero: the first n characters of a string. -/
def strTake (s : String) (n : Nat) : String := String.mk (s.data.take n)

/-- Modelled from the spec: whitespace-run collapsing core of normalizeText,
which extract.ts references but which is not under src/ (spec 4.1: collapse runs
of whitespace, preserving single newlines). A pending whitespace run is carried
as `run`, remembering whether it contained a newline. -/
def collapseWsGo (run : Option Bool) : List Char → List Char
  | [] =>
    match run with
    | none => []
    | some nl => [if nl then '\n' else ' ']
  | c :: rest =>
    if isWsChar c then collapseWsGo (some (run.getD false || c = '\n')) rest
    else
      match run with
      | none => c :: collapseWsGo none rest
      | some nl => (if nl then '\n' else ' ') :: c :: collapseWsGo none rest

/-- Modelled from the spec: normalizeText (referenced by extract.ts, not under
src/) collapses whitespace runs to a single space or, when the run held a
newline, a single newline (spec 4.1). -/
def normalizeText (s : String) : String := String.mk (collapseWsGo none s.data)

/-- Maximum normalized text length (spec 4.1 "e.g., 8000 characters"; the backend
policy_extractor.rb uses MAX_TEXT_LENGTH = 8000). -/
def MAX_TEXT_LENGTH : Nat := 8000

/-- Modelled from the spec: decoding of the five common named character entities
(spec 4.1), part of the stripTagsToText helper that is not under src/. -/
def decodeEntities : List Char → List Char
  | [] => []
  | '&' :: 'a' :: 'm' :: 'p' :: ';' :: r => '&' :: decodeEntities r
  | '&' :: 'l' :: 't' :: ';' :: r => '<' :: decodeEntities r
  | '&' :: 'g' :: 't' :: ';' :: r => '>' :: decodeEntities r
  | '&' :: 'q' :: 'u' :: 'o' :: 't' :: ';' :: r => '"' :: decodeEntities r
  | '&' :: '#' :: '3' :: '9' :: ';' :: r => Char.ofNat 39 :: decodeEntities r
  | c :: rest => c :: decodeEntities rest

/-- Tag-scan state for the spec-modelled markup stripper. -/
inductive StripMode
  | txt
  | tag (name : List Char) (nameDone : Bool)
  | raw (closeTag : List Char)

/-- Characters allowed in a tag name. -/
def isTagNameChar (c : Char) : Bool := c.isAlpha || c.isDigit

/-- Block-level tags whose boundaries become newlines (spec 4.1). -/
def blockTags : List (List Char) :=
  (["p", "div", "br", "li", "ul", "ol", "h1", "h2", "h3", "h4", "h5", "h6",
    "tr", "table", "section", "article"].map String.data)

/-- Tags stripped together with their content (spec 4.1: script/style/nav/header/
footer/iframe/svg blocks). -/
def rawTags : List (List Char) :=
  (["script", "style", "nav", "header", "footer", "iframe", "svg"].map String.data)

/-- Closing-tag marker searched for while skipping a raw block. -/
def closeTagFor (name : List Char) : List Char := '<' :: '/' :: name

/-- Tag name with a leading slash removed. -/
def tagCore (name : List Char) : List Char :=
  match name with
  | '/' :: rest => rest
  | l => l

/-- Modelled from the spec: tag-stripping core of stripTagsToText, which is not
under src/ (spec 4.1): raw blocks are dropped with their content, block-level tag
boundaries become newlines, other tags become spaces. Fuel is bounded by the
input length since every step consumes at least one character. -/
def stripTagsGo : Nat → StripMode → List Char → List Char
  | 0, _, _ => []
  | _ + 1, _, [] => []
  | fuel + 1, .txt, c :: rest =>
    if c = '<' then stripTagsGo fuel (.tag [] false) rest
    else c :: stripTagsGo fuel .txt rest
  | fuel + 1, .tag name nameDone, c :: rest =>
    if c = '>' then
      if (tagCore name = name : Bool) && rawTags.contains name then
        stripTagsGo fuel (.raw (closeTagFor name)) rest
      else
        (if blockTags.contains (tagCore name) then '\n' else ' ') :: stripTagsGo fuel .txt rest
    else if !nameDone && (isTagNameChar c || c = '/') then
      stripTagsGo fuel (.tag (name ++ [c]) false) rest
    else
      stripTagsGo fuel (.tag name true) rest
  | fuel + 1, .raw closeTag, c :: rest =>
    if closeTag.isPrefixOf (c :: rest) then
      stripTagsGo fuel (.tag (closeTag.drop 1) true) ((c :: rest).drop closeTag.length)
    else
      stripTagsGo fuel (.raw closeTag) rest

/-- Modelled from the spec: stripTagsToText (referenced by extract.ts
stripHtmlToText, not under src/): strip markup, then decode the five named
entities (spec 4.1). -/
def stripTagsToText (html : String) : String :=
  String.mk (decodeEntities (stripTagsGo html.data.length .txt html.data))

/-- HTML to normalized, capped text (extract.ts stripHtmlToText). The container
heuristic extractContentFromContainer requires DOMParser and yields null in the
worker context, so the whole markup string is stripped, normalized and capped. -/
def stripHtmlToText (html : String) : String :=
  strTake (normalizeText (stripTagsToText html)) MAX_TEXT_LENGTH

/-- No two adjacent whitespace characters and every whitespace character is a
plain space or newline: the shape normalizeText outputs. -/
def headNonWs : List Char → Bool
  | [] => true
  | d :: _ => !isWsChar d

/-- Whether a character list is already in collapsed form. -/
def collapsedOK : List Char → Bool
  | [] => true
  | c :: rest =>
    (!isWsChar c || ((c = ' ' || c = '\n') && headNonWs rest)) && collapsedOK rest

/- ===================== Quality scorer and API compaction (spec 4.4 and 6) ===================== -/

/-- Modelled from the spec: compactPolicyTextForApi (referenced by background.ts
and content.ts, not under src/): the remote extractor accepts at most 8000
characters (spec 6), whitespace-compacted (spec 4.1). -/
def compactPolicyTextForApi (text : String) : String :=
  strTake (normalizeText text) MAX_TEXT_LENGTH

/-- Does `pat` occur as a contiguous run inside the list? -/
def containsSub (pat : List Char) : List Char → Bool
  | [] => pat.isEmpty
  | c :: rest => pat.isPrefixOf (c :: rest) || containsSub pat rest

/-- Substring test on strings. -/
def strContains (hay pat : String) : Bool := containsSub pat.data hay.data

/-- Policy vocabulary for the spec-modelled quality scorer (spec 4.4: density of
return/refund policy-domain vocabulary). -/
def qualityVocab : List String :=
  ["return", "refund", "exchange", "policy", "days", "credit"]

/-- Modelled from the spec: scorePolicyTextQuality (referenced by background.ts
and content.ts, not under src/): an integer score from a minimum length
threshold, vocabulary density and a structural length cue (spec 4.4); text under
50 characters is immediately non-extractable. -/
def scorePolicyTextQuality (text : String) : Int :=
  if text.length < 50 then 0
  else
    2 * ((qualityVocab.filter (fun v => strContains text v)).length : Int)
      + (if text.length ≥ 200 then 1 else 0)

/- ===================== Candidate probe (background.ts fetchBestPolicyCandidate) ===================== -/

/-- One fetched-and-scored candidate (the record built in background.ts
fetchBestPolicyCandidate, lines 377-381). -/
structure ScoredCandidate where
  url : String
  html : String
  text : String
  quality : Int
  deriving DecidableEq, Repr

/-- The scored candidate the probe loop body builds for a fetched page
(background.ts lines 377-381). -/
def scoreFetched (url html : String) : ScoredCandidate :=
  let text := stripHtmlToText html
  ⟨url, html, text, scorePolicyTextQuality (compactPolicyTextForApi text)⟩

/-- Best-so-far accumulator update of the probe loop (background.ts lines
384-386): keep the strictly higher quality, ties favoring the earlier one. -/
def bestUpdate (best : Option ScoredCandidate) (candidate : ScoredCandidate) :
    Option ScoredCandidate :=
  match best with
  | none => some candidate
  | some b => if candidate.quality > b.quality then some candidate else some b

/-- Loop of fetchBestPolicyCandidate (background.ts lines 370-397) with the
network abstracted as `fetchHtml`; a fetchPolicyHtml call that throws is `none`
and is skipped like the source catch block does. The pair also returns the trace
of URLs actually probed, in order. -/
def fetchBestGo (fetchHtml : String → Option String) :
    Option ScoredCandidate → List String → Option ScoredCandidate × List String
  | best, [] => (best, [])
  | best, url :: rest =>
    match fetchHtml url with
    | none =>
      let r := fetchBestGo fetchHtml best rest
      (r.1, url :: r.2)
    | some html =>
      let candidate := scoreFetched url html
      let best2 := bestUpdate best candidate
      if candidate.quality ≥ 8 then (some candidate, [url])
      else
        let r := fetchBestGo fetchHtml best2 rest
        (r.1, url :: r.2)

/-- Result of the candidate probe (background.ts fetchBestPolicyCandidate). -/
def fetchBestPolicyCandidate (fetchHtml : String → Option String)
    (candidates : List String) : Option ScoredCandidate :=
  (fetchBestGo fetchHtml none candidates).1

/-- URLs the candidate probe actually fetched, in order. -/
def fetchBestTrace (fetchHtml : String → Option String)
    (candidates : List String) : List String :=
  (fetchBestGo fetchHtml none candidates).2

/- ===================== Hidden-render fallback probe (background.ts 424-443) ===================== -/

/-- One rendered-and-scored candidate (background.ts
fetchBestRenderedPolicyCandidate local record). -/
structure RenderedCandidate where
  url : String
  text : String
  quality : Int
  deriving DecidableEq, Repr

/-- Best-so-far accumulator update of the rendered probe loop (background.ts
line 438). -/
def renderedBestUpdate (best : Option RenderedCandidate) (candidate : RenderedCandidate) :
    Option RenderedCandidate :=
  match best with
  | none => some candidate
  | some b => if candidate.quality > b.quality then some candidate else some b

/-- Loop of fetchBestRenderedPolicyCandidate (background.ts lines 424-443); the
hidden-tab extraction is abstracted as `render`, and a null or empty rendered
text is skipped as the source falsiness check does. The trace records every URL
a hidden tab was opened for. -/
def fetchBestRenderedGo (render : String → Option String) :
    Option RenderedCandidate → List String → Option RenderedCandidate × List String
  | best, [] => (best, [])
  | best, url :: rest =>
    match render url with
    | none =>
      let r := fetchBestRenderedGo render best rest
      (r.1, url :: r.2)
    | some renderedText =>
      if renderedText.isEmpty then
        let r := fetchBestRenderedGo render best rest
        (r.1, url :: r.2)
      else
        let quality := scorePolicyTextQuality (compactPolicyTextForApi renderedText)
        let candidate : RenderedCandidate := ⟨url, renderedText, quality⟩
        let best2 := renderedBestUpdate best candidate
        if quality ≥ 8 then (some candidate, [url])
        else
          let r := fetchBestRenderedGo render best2 rest
          (r.1, url :: r.2)

/- ===================== Regular-expression engine for the extract.ts patterns ===================== -/

/-- Word character in the JS regex sense restricted to ASCII. -/
def isWordChar (c : Char) : Bool := c.isAlphanum || c = '_'

/-- Digit class for the backslash-d escapes. -/
def isDigitChar (c : Char) : Bool := c.isDigit

/-- Character classes appearing in the extract.ts patterns. -/
inductive CharCls
  | digit
  | space
  | oneOf (cs : List Char)
  deriving Repr

/-- Membership in a character class; the space class mirrors the whitespace set
of the normalizer. -/
def CharCls.mem (cls : CharCls) (c : Char) : Bool :=
  match cls with
  | .digit => isDigitChar c
  | .space => isWsChar c
  | .oneOf cs => cs.contains c

/-- Abstract syntax of the regular expressions used in extract.ts, transcribed
one constructor per JS construct: literals, classes, word boundaries, ordered
concatenation and alternation, greedy option and greedy star, and numbered
capturing groups. -/
inductive RE
  | eps
  | lit (cs : List Char)
  | cls (k : CharCls)
  | wb
  | seq (a b : RE)
  | alt (a b : RE)
  | opt (a : RE)
  | star (a : RE)
  | grp (idx : Nat) (a : RE)
  deriving Repr

/-- Sequence of several parts, right-nested. -/
def reCat (l : List RE) : RE := l.foldr RE.seq RE.eps

/-- Ordered alternation of several branches, tried left to right. -/
def reAlts : List RE → RE
  | [] => RE.lit []
  | [r] => r
  | r :: rest => RE.alt r (reAlts rest)

/-- Literal word helper. -/
def reW (s : String) : RE := RE.lit s.data

/-- JS backslash-s star. -/
def reWsStar : RE := RE.star (RE.cls .space)

/-- JS backslash-s plus. -/
def reWsPlus : RE := RE.seq (RE.cls .space) reWsStar

/-- Greedy bounded repetition of a class, r repeated 1 to n times, expanded as
the JS engine backtracks it: try the longer tail first. -/
def reRep1 (r : RE) : Nat → RE
  | 0 => r
  | n + 1 => RE.seq r (RE.opt (reRep1 r n))

/-- Captures collected during a match attempt, latest first. -/
def Caps : Type := List (Nat × List Char)

/-- Look up the latest value captured for a group. -/
def capLookup (caps : Caps) (idx : Nat) : Option (List Char) :=
  match caps with
  | [] => none
  | (i, v) :: rest => if i = idx then some v else capLookup rest idx

/-- Word-boundary test between positions pos - 1 and pos of the subject. -/
def atWordBoundary (text : List Char) (pos : Nat) : Bool :=
  let before := if pos = 0 then false else
    match text.get? (pos - 1) with
    | some c => isWordChar c
    | none => false
  let after :=
    match text.get? pos with
    | some c => isWordChar c
    | none => false
  before != after

/-- Backtracking matcher in continuation-passing style: matches `r` at `pos`,
invoking the continuation for each way of matching in the preference order of
the JS engine (greedy, leftmost alternative first) until one succeeds. Fuel
decreases on every constructor step and on every star unfolding, so any fuel
at least patternSize * (length + 1) is enough; callers pass a generous bound. -/
def matchRE : Nat → RE → List Char → Nat → Caps →
    (Nat → Caps → Option (Nat × Caps)) → Option (Nat × Caps)
  | 0, _, _, _, _, _ => none
  | _ + 1, .eps, _, pos, caps, k => k pos caps
  | _ + 1, .lit cs, text, pos, caps, k =>
    if cs.isPrefixOf (text.drop pos) then k (pos + cs.length) caps else none
  | _ + 1, .cls cl, text, pos, caps, k =>
    match text.get? pos with
    | some c => if cl.mem c then k (pos + 1) caps else none
    | none => none
  | _ + 1, .wb, text, pos, caps, k =>
    if atWordBoundary text pos then k pos caps else none
  | fuel + 1, .seq a b, text, pos, caps, k =>
    matchRE fuel a text pos caps (fun pos2 caps2 => matchRE fuel b text pos2 caps2 k)
  | fuel + 1, .alt a b, text, pos, caps, k =>
    match matchRE fuel a text pos caps k with
    | some res => some res
    | none => matchRE fuel b text pos caps k
  | fuel + 1, .opt a, text, pos, caps, k =>
    match matchRE fuel a text pos caps k with
    | some res => some res
    | none => k pos caps
  | fuel + 1, .star a, text, pos, caps, k =>
    match matchRE fuel a text pos caps (fun pos2 caps2 =>
        if pos2 > pos then matchRE fuel (.star a) text pos2 caps2 k
        else k pos2 caps2) with
    | some res => some res
    | none => k pos caps
  | fuel + 1, .grp idx a, text, pos, caps, k =>
    matchRE fuel a text pos caps
      (fun pos2 caps2 => k pos2 ((idx, (text.drop pos).take (pos2 - pos)) :: caps2))

/-- Fuel large enough for every pattern and subject in this development. -/
def matchFuel (text : List Char) : Nat := 400 + 40 * text.length

/-- One recorded match: start index, length and captures. -/
structure MatchRec where
  index : Nat
  length : Nat
  caps : Caps

/-- Leftmost match at or after `pos`, scanning forward like exec does. -/
def execFromGo (r : RE) (text : List Char) : Nat → Nat → Option MatchRec
  | _, 0 => none
  | pos, fuel + 1 =>
    match matchRE (matchFuel text) r text pos [] (fun p c => some (p, c)) with
    | some (endPos, caps) => some ⟨pos, endPos - pos, caps⟩
    | none => execFromGo r text (pos + 1) fuel

/-- Leftmost match of `r` in `text` at or after position `start`. -/
def execFrom (r : RE) (text : List Char) (start : Nat) : Option MatchRec :=
  execFromGo r text start (text.length + 1 - start)

/-- Does the pattern match anywhere in the subject (RegExp.test)? -/
def reTest (r : RE) (text : List Char) : Bool := (execFrom r text 0).isSome

/-- All successive matches in the global-flag exec-loop sense: each search
resumes at the end of the previous match, or one past it for an empty match. -/
def execAllGo (r : RE) (text : List Char) : Nat → Nat → List MatchRec
  | _, 0 => []
  | pos, fuel + 1 =>
    match execFrom r text pos with
    | none => []
    | some m =>
      m :: execAllGo r text (if m.length = 0 then m.index + 1 else m.index + m.length) fuel

/-- All matches of `r` in `text`, in order, as the while-exec loops collect. -/
def execAll (r : RE) (text : List Char) : List MatchRec :=
  execAllGo r text 0 (text.length + 1)

/-- Matched text of a record. -/
def MatchRec.text (m : MatchRec) (subject : List Char) : List Char :=
  (subject.drop m.index).take m.length

/-- Rebuild a subject replacing every recorded match by `repl`; matches come
from execAll, hence are in order and non-overlapping, exactly the one-pass
semantics of String.replace with a global pattern. -/
def replaceRecs (subject repl : List Char) : Nat → List MatchRec → List Char
  | pos, [] => subject.drop pos
  | pos, m :: ms =>
    (subject.drop pos).take (m.index - pos) ++ repl ++
      replaceRecs subject repl (m.index + m.length) ms

/-- String.replace with a global regex: replace every match of `r` by `repl`. -/
def replaceAllRE (r : RE) (repl : List Char) (subject : List Char) : List Char :=
  replaceRecs subject repl 0 (execAll r subject)

/- ===================== Field extractors (extension/src/shared/extract.ts) ===================== -/

/-- Extractor result (extract.ts ExtractResult). -/
structure ExtractResult where
  value : Option (List Char)
  confidence : ConfidenceLevel
  deriving DecidableEq, Repr

/-- Fixed thresholds deriving a confidence level from a score (extract.ts
estimateConfidence). -/
def estimateConfidence (score : Int) : ConfidenceLevel :=
  if score ≥ 5 then .high
  else if score ≥ 3 then .medium
  else .low

/-- Trim leading and trailing whitespace. -/
def trimChars (l : List Char) : List Char :=
  ((l.dropWhile isWsChar).reverse.dropWhile isWsChar).reverse

/-- Collapse every whitespace run to one space, the replace of backslash-s-plus
by a single space used inside clause extraction and sentence summarizing. -/
def collapseAllWs : List Char → List Char
  | [] => []
  | c :: rest =>
    if isWsChar c then
      match rest with
      | [] => [' ']
      | d :: _ => if isWsChar d then collapseAllWs rest else ' ' :: collapseAllWs rest
    else c :: collapseAllWs rest

/-- Modelled from the spec: the sentence splitter SENTENCE_SPLIT_REGEX referenced
by extract.ts getSentences is not under src/; text splits into sentence-like
units at period, exclamation and question marks (spec 4.2). -/
def splitSentencesGo (acc : List Char) : List Char → List (List Char)
  | [] => [acc.reverse]
  | c :: rest =>
    if c = '.' || c = '!' || c = '?' then acc.reverse :: splitSentencesGo [] rest
    else splitSentencesGo (c :: acc) rest

/-- Sentence-like units of the text, trimmed, keeping only those longer than 8
characters (extract.ts getSentences). -/
def getSentences (text : List Char) : List (List Char) :=
  ((splitSentencesGo [] text).map trimChars).filter (fun s => s.length > 8)

/-- Clause of up to radius characters around a match index, whitespace-collapsed
and trimmed (extract.ts extractClause). -/
def extractClause (text : List Char) (matchIndex radius : Nat) : List Char :=
  let start := matchIndex - radius
  let stop := min text.length (matchIndex + radius)
  trimChars (collapseAllWs ((text.drop start).take (stop - start)))

/-- Modelled from the spec: the anchor-word pattern FIELD_ANCHORS referenced by
extract.ts sentenceHasAnchor is not under src/; a clause is anchored when a
return, refund, exchange or replacement word appears in it (spec 4.2). -/
def fieldAnchors : List (List Char) :=
  (["return", "refund", "exchange", "replacement"].map String.data)

/-- Anchor test on a sentence or clause (extract.ts sentenceHasAnchor). -/
def sentenceHasAnchor (sentence : List Char) : Bool :=
  fieldAnchors.any (fun a => containsSub a sentence)

/-- Pattern of the conditional words lowering a clause score:
backslash-b if backslash-b or unless or except (extract.ts line 204). -/
def reIfUnlessExcept : RE :=
  reAlts [reCat [RE.wb, reW "if", RE.wb], reCat [RE.wb, reW "unless", RE.wb],
          reCat [RE.wb, reW "except", RE.wb]]

/-- Pattern return-or-refund-or-exchange as written at extract.ts line 205: the
boundary binds only to the first and last alternative. -/
def reReturnRefundExchange : RE :=
  reAlts [RE.seq RE.wb (reW "return"), reW "refund", RE.seq (reW "exchange") RE.wb]

/-- Clause score of a candidate match position (extract.ts strongestMatch body,
lines 201-205). -/
def clauseScore (lower : List Char) (index : Nat) : Int :=
  let clause := extractClause lower index 120
  (if sentenceHasAnchor clause then 2 else 0)
    + (if reTest reIfUnlessExcept clause then 1 else 0)
    + (if reTest reReturnRefundExchange clause then 2 else 0)

/-- A strongest-match record (extract.ts strongestMatch local best). -/
structure SMatch where
  text : List Char
  index : Nat
  score : Int
  deriving DecidableEq, Repr

/-- Strongest scoring occurrence over a pattern list (extract.ts strongestMatch):
patterns in order, every global-exec occurrence of each, keeping the first
occurrence of the highest clause score. -/
def strongestMatch (lower : List Char) (patterns : List RE) : Option SMatch :=
  patterns.foldl (fun best pat =>
    (execAll pat lower).foldl (fun best m =>
      let sc := clauseScore lower m.index
      match best with
      | none => some ⟨m.text lower, m.index, sc⟩
      | some b => if sc > b.score then some ⟨m.text lower, m.index, sc⟩ else some b)
      best) none

/-- Modelled from the spec: the hard-negative pattern set
NEGATIVE_RETURN_PATTERNS referenced by extract.ts extractReturnWindow is not
under src/; the spec names the phrases no returns, all sales final and
non-refundable (spec 4.2). -/
def NEGATIVE_RETURN_PATTERNS : List RE :=
  [reW "no returns", reW "all sales final", reW "non-refundable"]

/-- Spelled-out number words and their digit replacements, in source order
(extract.ts WORD_NUMBERS). -/
def WORD_NUMBERS : List (String × String) :=
  [("one", "1"), ("two", "2"), ("three", "3"), ("four", "4"), ("five", "5"),
   ("six", "6"), ("seven", "7"), ("eight", "8"), ("nine", "9"), ("ten", "10"),
   ("eleven", "11"), ("twelve", "12"), ("thirteen", "13"), ("fourteen", "14"),
   ("fifteen", "15"), ("sixteen", "16"), ("seventeen", "17"), ("eighteen", "18"),
   ("nineteen", "19"), ("twenty", "20"), ("twentyone", "21"), ("twentyeight", "28"),
   ("thirty", "30"), ("forty", "40"), ("fortyfive", "45"), ("fifty", "50"),
   ("sixty", "60"), ("seventy", "70"), ("eighty", "80"), ("ninety", "90")]

/-- Whole-word pattern for a number word. -/
def reWord (w : String) : RE := reCat [RE.wb, reW w, RE.wb]

/-- Replace hyphens by spaces, then every spelled-out number word by its digits,
then the two-word leftovers (extract.ts normalizeNumberWords). -/
def normalizeNumberWords (lower : List Char) : List Char :=
  let l1 := lower.map (fun c => if c = '-' then ' ' else c)
  let l2 := WORD_NUMBERS.foldl (fun l wn => replaceAllRE (reWord wn.1) wn.2.data l) l1
  let l3 := replaceAllRE (reCat [RE.wb, reW "twenty", reWsPlus, reW "one", RE.wb]) "21".data l2
  let l4 := replaceAllRE (reCat [RE.wb, reW "twenty", reWsPlus, reW "eight", RE.wb]) "28".data l3
  replaceAllRE (reCat [RE.wb, reW "forty", reWsPlus, reW "five", RE.wb]) "45".data l4

/-- The duration pattern of extract.ts extractReturnWindow (line 219), group
numbers as in the source: 1 the first number, 2 the optional range end, 3 the
optional calendar prefix, 4 the unit. -/
def durationPattern : RE :=
  reCat
    [RE.wb,
     RE.opt (reAlts
       [reW "within", reW "up to", reW "for", reW "from", reW "after",
        reCat [reW "accept", RE.opt (reW "ed"), reWsPlus, reW "for"],
        reCat [reW "eligible", reWsPlus, reW "for"]]),
     reWsStar,
     RE.grp 1 (reRep1 (RE.cls .digit) 2),
     RE.opt (reCat
       [reWsStar, reAlts [reW "-", reW "to"], reWsStar,
        RE.grp 2 (reRep1 (RE.cls .digit) 2)]),
     reWsStar,
     RE.opt (RE.grp 3 (reCat [reW "calendar", reWsPlus])),
     RE.grp 4 (reAlts [reW "day", reW "week", reW "month", reW "year"]),
     RE.opt (reW "s"),
     RE.wb]

/-- Bonus pattern within-or-from-delivery-or-from-purchase-or-of-receipt as
written at extract.ts line 235. -/
def reWithinDelivery : RE :=
  reAlts [RE.seq RE.wb (reW "within"), reW "from delivery", reW "from purchase",
          RE.seq (reW "of receipt") RE.wb]

/-- Bonus pattern exchange-or-refund-or-return as written at extract.ts
line 236. -/
def reExchangeRefundReturn : RE :=
  reAlts [RE.seq RE.wb (reW "exchange"), reW "refund", RE.seq (reW "return") RE.wb]

/-- Penalty pattern backslash-b if backslash-b or unless (extract.ts line 237). -/
def reIfUnless : RE :=
  reAlts [reCat [RE.wb, reW "if", RE.wb], reCat [RE.wb, reW "unless", RE.wb]]

/-- A scored duration value (local best of extract.ts extractReturnWindow). -/
structure DurationBest where
  value : List Char
  score : Int
  deriving DecidableEq, Repr

/-- Value string built from a duration match (extract.ts lines 229-232). -/
def durationValue (m : MatchRec) : List Char :=
  let first := (capLookup m.caps 1).getD []
  let second := capLookup m.caps 2
  let unit := (capLookup m.caps 4).getD []
  match second with
  | some sec => first ++ "-".data ++ sec ++ " ".data ++ unit ++ "s".data
  | none => first ++ " ".data ++ unit ++ (if first = "1".data then [] else "s".data)

/-- Score of an anchored duration match (extract.ts lines 234-237). -/
def durationScore (normalized : List Char) (m : MatchRec) : Int :=
  let clause := extractClause normalized m.index 180
  3 + (if reTest reWithinDelivery clause then 1 else 0)
    + (if reTest reExchangeRefundReturn clause then 1 else 0)
    - (if reTest reIfUnless clause then 1 else 0)

/-- The while loop of extract.ts extractReturnWindow (lines 221-240): walk every
duration match, skip the unanchored ones, keep the first best score. -/
def durationBest (normalized : List Char) : Option DurationBest :=
  (execAll durationPattern normalized).foldl (fun best m =>
    if sentenceHasAnchor (extractClause normalized m.index 180) then
      let cand : DurationBest := ⟨durationValue m, durationScore normalized m⟩
      match best with
      | none => some cand
      | some b => if cand.score > b.score then some cand else some b
    else best) none

/-- Open-ended phrase patterns of extract.ts lines 254-258. -/
def OPEN_ENDED_PATTERNS : List RE :=
  [reCat [RE.wb, reW "return", RE.opt (reW "s"), reWsPlus, reW "accepted", RE.wb],
   reCat [RE.wb, reW "contact", reWsPlus, reW "us", reWsPlus, reW "for", reWsPlus,
          reW "return", RE.opt (reW "s"), RE.wb],
   reCat [RE.wb, reW "case", RE.cls (.oneOf ['-', ' ']), reW "by",
          RE.cls (.oneOf ['-', ' ']), reW "case", RE.wb]]

/-- Return-window extractor (extract.ts extractReturnWindow). -/
def extractReturnWindow (lower : List Char) : ExtractResult :=
  let hardNegative := strongestMatch lower NEGATIVE_RETURN_PATTERNS
  let normalized := normalizeNumberWords lower
  let best := durationBest normalized
  match hardNegative, best with
  | some hn, none => ⟨some hn.text, .high⟩
  | some hn, some _ => ⟨some hn.text, .medium⟩
  | none, some b => ⟨some b.value, estimateConfidence b.score⟩
  | none, none =>
    match strongestMatch lower OPEN_ENDED_PATTERNS with
    | some oe => ⟨some (extractClause lower oe.index 90), .medium⟩
    | none => ⟨none, .low⟩

/-- First-occurrence set union, then cap, collapse and join (extract.ts
summarizeSentences); null only on empty input as in the source. -/
def summarizeSentences (sentences : List (List Char)) (maxCount : Nat) :
    Option (List Char) :=
  match sentences with
  | [] => none
  | _ =>
    let unique := dedupeKeepFirst []
      ((sentences.map trimChars).filter (fun s => !s.isEmpty))
    some ((List.intercalate "; ".data ((unique.take maxCount).map collapseAllWs)).take 260)

/-- Keyword set of the condition extractor (extract.ts lines 267-284). -/
def conditionKeywords : List (List Char) :=
  (["unworn", "unwashed", "tags attached", "tags still attached", "with tags",
    "original packaging", "original condition", "unused", "unaltered",
    "resalable condition", "resellable condition", "like new", "new condition",
    "in its original", "proof of purchase", "receipt required"].map String.data)

/-- Penalty pattern backslash-b not backslash-b or no (extract.ts line 295). -/
def reNotNo : RE :=
  reAlts [reCat [RE.wb, reW "not", RE.wb], reCat [RE.wb, reW "no", RE.wb]]

/-- Sentence scan of the condition extractor (extract.ts lines 286-300):
collect matching sentences and the best per-sentence score. -/
def conditionScan (lower : List Char) : List (List Char) × Int :=
  (getSentences lower).foldl (fun (acc : List (List Char) × Int) s =>
    let hits := (conditionKeywords.filter (fun kw => containsSub kw s)).length
    if hits = 0 then acc
    else
      let anchorBoost : Int := if sentenceHasAnchor s then 1 else 0
      let negativePenalty : Int := if reTest reNotNo s then 1 else 0
      let score := (hits : Int) + anchorBoost - negativePenalty
      (acc.1 ++ [s], max acc.2 score)) ([], 0)

/-- Condition-requirements extractor (extract.ts extractConditionRequirements). -/
def extractConditionRequirements (lower : List Char) : ExtractResult :=
  match (conditionScan lower).1 with
  | [] => ⟨none, .low⟩
  | matched => ⟨summarizeSentences matched 2, estimateConfidence (conditionScan lower).2⟩

/-- Fee-bearing patterns (extract.ts lines 311-318). -/
def feePatterns : List RE :=
  [reCat [RE.wb, reRep1 (RE.cls .digit) 1, reW "%", reWsStar,
          RE.opt (reAlts [reW "restocking", reW "processing"]), reWsStar,
          reW "fee", RE.wb],
   reCat [RE.wb, reRep1 (RE.cls .digit) 1, reWsStar, reW "percent", reWsStar,
          RE.opt (reAlts [reW "restocking", reW "processing"]), reWsStar,
          reW "fee", RE.wb],
   reCat [reW "$", RE.opt (RE.cls .space), RE.seq (RE.cls .digit) (RE.star (RE.cls .digit)),
          RE.opt (reCat [reW ".", reRep1 (RE.cls .digit) 1]), reWsStar,
          RE.opt (reAlts [reW "return", reW "restocking", reW "label", reW "processing"]),
          reWsStar, reW "fee", RE.wb],
   reCat [RE.wb, reW "return", reWsPlus, reW "shipping", reWsPlus, reW "cost",
          RE.opt (reW "s"), reWsPlus, reW "will", reWsPlus, reW "be", reWsPlus,
          reW "deducted", reWsPlus, reW "from", reWsPlus,
          RE.opt (reCat [reW "your", reWsPlus]), reW "refund", RE.wb],
   reCat [RE.wb, reW "original", reWsPlus, reW "shipping", reWsPlus,
          RE.opt (reCat [reW "fee", RE.opt (reW "s"), reWsPlus]),
          reAlts [reW "is", reW "are"], reWsPlus, reW "non",
          RE.opt (RE.cls (.oneOf ['-', ' '])), reW "refundable", RE.wb],
   reCat [RE.wb, reW "shipping", reWsPlus, reW "fee", RE.opt (reW "s"), reWsPlus,
          reW "are", reWsPlus, reW "not", reWsPlus, reW "refunded", RE.wb]]

/-- No-fee patterns (extract.ts lines 320-326). -/
def noFeePatterns : List RE :=
  [reCat [RE.wb, reW "no", reWsPlus, reW "restocking", reWsPlus, reW "fee",
          RE.opt (reW "s"), RE.wb],
   reCat [RE.wb, reW "no", reWsPlus, reW "return", reWsPlus, reW "fee",
          RE.opt (reW "s"), RE.wb],
   reCat [RE.wb, reW "free", reWsPlus, reW "return", RE.opt (reW "s"), RE.wb],
   reCat [RE.wb, reW "no", reWsPlus, reW "charge", RE.wb],
   reCat [RE.wb, reW "full", reWsPlus, reW "refund", RE.wb]]

/-- Fees extractor (extract.ts extractFees). -/
def extractFees (lower : List Char) : ExtractResult :=
  let feeHit := strongestMatch lower feePatterns
  let noFeeHit := strongestMatch lower noFeePatterns
  match feeHit, noFeeHit with
  | some f, some n =>
    ⟨some (extractClause lower (min f.index n.index) 140), .medium⟩
  | some f, none =>
    ⟨some (extractClause lower f.index 90), estimateConfidence (f.score + 2)⟩
  | none, some n => ⟨some (extractClause lower n.index 80), .medium⟩
  | none, none => ⟨none, .low⟩

/-- Free-return patterns (extract.ts lines 348-354). -/
def freeShippingPatterns : List RE :=
  [reCat [RE.wb, reW "free", reWsPlus, reW "return", RE.opt (reW "s"), RE.wb],
   reCat [RE.wb, reW "free", reWsPlus, reW "return", reWsPlus, reW "shipping", RE.wb],
   reCat [RE.wb, reW "prepaid", reWsPlus, reW "return", reWsPlus, reW "label", RE.wb],
   reCat [RE.wb, reW "we",
          RE.opt (reAlts [reCat [reWsPlus, reW "will"],
                          RE.lit [Char.ofNat 39, 'l', 'l']]),
          reWsPlus, reW "provide", reWsPlus, RE.opt (reCat [reW "a", reWsPlus]),
          reW "return", reWsPlus, reW "label", RE.wb],
   reCat [RE.wb, reW "at", reWsPlus, reW "no", reWsPlus, reW "cost", reWsPlus,
          reW "to", reWsPlus, reW "you", RE.wb]]

/-- Seller-pays patterns (extract.ts lines 356-360). -/
def sellerShippingPatterns : List RE :=
  [reCat [RE.wb, reW "we", reWsPlus, reAlts [reW "pay", reW "cover"], reWsPlus,
          reW "return", reWsPlus, reW "shipping", RE.wb],
   reCat [RE.wb, reW "seller", reWsPlus, reW "pays", RE.wb],
   reCat [RE.wb, reW "at", reWsPlus, reW "our", reWsPlus, reW "expense", RE.wb]]

/-- Customer-pays patterns (extract.ts lines 362-368). -/
def customerShippingPatterns : List RE :=
  [reCat [RE.wb, reW "customer", reWsPlus, reW "pays", RE.wb],
   reCat [RE.wb, reW "buyer", reWsPlus, reW "pays", RE.wb],
   reCat [RE.wb, reW "you", reWsPlus, reW "are", reWsPlus, reW "responsible",
          reWsPlus, reW "for", reWsPlus, reW "return", reWsPlus, reW "shipping", RE.wb],
   reCat [RE.wb, reW "return", reWsPlus, reW "shipping", reWsPlus, reW "is",
          reWsPlus, reW "your", reWsPlus, reW "responsibility", RE.wb],
   reCat [RE.wb, reW "at", reWsPlus, reW "your", reWsPlus, reW "expense", RE.wb]]

/-- Defective-item carve-out patterns (extract.ts lines 375-378). -/
def defectivePatterns : List RE :=
  [reCat [RE.wb, reW "if", reWsPlus, reAlts [reW "item", reW "items"], reWsPlus,
          reAlts [reW "is", reW "are"], reWsPlus,
          reAlts [reW "damaged", reW "defective", reW "incorrect"], RE.wb],
   reCat [RE.wb, reW "for", reWsPlus, reW "defective", reWsPlus, reW "item",
          RE.opt (reW "s"), RE.wb]]

/-- Return-shipping extractor (extract.ts extractReturnShipping). -/
def extractReturnShipping (lower : List Char) : ExtractResult :=
  let freeHit := strongestMatch lower freeShippingPatterns
  let sellerHit := strongestMatch lower sellerShippingPatterns
  let customerHit := strongestMatch lower customerShippingPatterns
  if (freeHit.isSome || sellerHit.isSome) && customerHit.isSome then
    match strongestMatch lower defectivePatterns with
    | some _ =>
      ⟨some "Customer pays (seller pays for defective/incorrect items)".data, .high⟩
    | none => ⟨some "Varies by item/reason".data, .medium⟩
  else
    match freeHit with
    | some f => ⟨some "Free returns".data, estimateConfidence (f.score + 2)⟩
    | none =>
      match sellerHit with
      | some s => ⟨some "Seller pays".data, estimateConfidence (s.score + 2)⟩
      | none =>
        match customerHit with
        | some c => ⟨some "Customer pays".data, estimateConfidence (c.score + 2)⟩
        | none => ⟨none, .low⟩

/-- Strong exclusion patterns (extract.ts lines 396-401). -/
def strongExclusionPatterns : List RE :=
  [reCat [RE.wb, reW "final", reWsPlus, reW "sale", RE.wb],
   reCat [RE.wb, reW "cannot", reWsPlus, reW "be", reWsPlus, reW "returned", RE.wb],
   reCat [RE.wb, reW "not", reWsPlus, reW "eligible", reWsPlus, reW "for", reWsPlus,
          reW "return", RE.wb],
   reCat [RE.wb, reW "non", RE.opt (RE.cls (.oneOf ['-', ' '])), reW "returnable", RE.wb]]

/-- Keyword set of the exclusions extractor (extract.ts lines 403-417). -/
def exclusionKeywords : List (List Char) :=
  (["final sale", "clearance", "custom", "personalized", "sale items", "underwear",
    "swimwear", "intimate", "digital", "downloadable", "gift card", "earrings",
    "beauty products"].map String.data)

/-- Sentence scan of the exclusions extractor (extract.ts lines 424-433):
matching sentences, best score, and whether a strong pattern appeared. -/
def exclusionScan (lower : List Char) : List (List Char) × Int × Bool :=
  (getSentences lower).foldl (fun (acc : List (List Char) × Int × Bool) s =>
    let hits := (exclusionKeywords.filter (fun kw => containsSub kw s)).length
    let strong := strongExclusionPatterns.any (fun pat => reTest pat s)
    if hits = 0 && !strong then acc
    else
      let score := (hits : Int) + (if strong then 3 else 0)
        + (if sentenceHasAnchor s then 1 else 0)
      (acc.1 ++ [s], max acc.2.1 score, acc.2.2 || strong)) ([], 0, false)

/-- Exclusions extractor (extract.ts extractExclusions). -/
def extractExclusions (lower : List Char) : ExtractResult :=
  match (exclusionScan lower).1 with
  | [] => ⟨none, .low⟩
  | matched =>
    ⟨summarizeSentences matched 3,
     if (exclusionScan lower).2.2 then .high
     else estimateConfidence (exclusionScan lower).2.1⟩

/-- Assemble the per-field confidences (extract.ts calculateConfidence). -/
def calculateConfidence (rw cond fees ship excl : ExtractResult) : PolicyConfidence :=
  ⟨rw.confidence, cond.confidence, fees.confidence, ship.confidence, excl.confidence⟩

/-- Local heuristic extraction (extract.ts extractPolicyFromText); the
new-Date timestamp enters as the parameter `now`. -/
def extractPolicyFromText (text policyUrl storeDomain now : String) : PolicySummary :=
  let normalized := normalizeText text
  let lower := normalized.data.map Char.toLower
  let returnWindowResult := extractReturnWindow lower
  let conditionResult := extractConditionRequirements lower
  let feesResult := extractFees lower
  let shippingResult := extractReturnShipping lower
  let exclusionsResult := extractExclusions lower
  { storeDomain := storeDomain
    policyUrl := policyUrl
    extractedAt := now
    fields :=
      ⟨returnWindowResult.value.map String.mk,
       conditionResult.value.map String.mk,
       feesResult.value.map String.mk,
       shippingResult.value.map String.mk,
       exclusionsResult.value.map String.mk⟩
    confidence := calculateConfidence returnWindowResult conditionResult feesResult
      shippingResult exclusionsResult
    rawTextSnippet := strTake normalized 500 }

/- ===================== Remote extractor call (background.ts buildSummary) ===================== -/

/-- Possible outcomes of the POST /extract call as buildSummary observes them:
a rejected or timed-out fetch, a non-2xx status, a body json() cannot parse, or
a parsed fields-and-confidence body. -/
inductive RemoteOutcome
  | netError
  | httpError (status : Nat)
  | malformedBody
  | ok (fields : PolicyFields) (confidence : PolicyConfidence)

/-- Does the remote body hold at least one non-empty string field
(background.ts lines 347-349)? -/
def hasUsefulField (fields : PolicyFields) : Bool :=
  [fields.returnWindow, fields.conditionRequirements, fields.fees,
   fields.returnShipping, fields.exclusions].any (fun v =>
    match v with
    | some s => !(s.trim.isEmpty)
    | none => false)

/-- Summary construction (background.ts buildSummary): remote result when it has
a useful field, local heuristics otherwise; every failure of the remote call is
caught and recovered locally, so the function is total and never propagates an
error. The timestamp enters as `now`. -/
def buildSummary (remote : RemoteOutcome) (now text policyUrl domain : String) :
    PolicySummary :=
  let compactText := compactPolicyTextForApi text
  match remote with
  | .ok fields confidence =>
    if hasUsefulField fields then
      { storeDomain := domain
        policyUrl := policyUrl
        extractedAt := now
        fields := fields
        confidence := confidence
        rawTextSnippet := strTake compactText 500 }
    else extractPolicyFromText compactText policyUrl domain now
  | _ => extractPolicyFromText compactText policyUrl domain now

/- ===================== Orchestrator outcome (background.ts handlePolicyUrlsResolved) ===================== -/

/-- Accepted-quality gate (background.ts MIN_REFUND_POLICY_QUALITY). -/
def MIN_REFUND_POLICY_QUALITY : Int := 6

/-- Hidden-render candidate cap (background.ts RENDER_FALLBACK_CANDIDATE_LIMIT). -/
def RENDER_FALLBACK_CANDIDATE_LIMIT : Nat := 3

/-- Candidate list derivation of handlePolicyUrlsResolved (background.ts line
265): urls.refundPolicyCandidates, else a singleton of urls.refundPolicy, else
empty. -/
def candidatesOf (refundPolicyCandidates : Option (List String))
    (refundPolicy : Option String) : List String :=
  match refundPolicyCandidates with
  | some l => l
  | none =>
    match refundPolicy with
    | some u => [u]
    | none => []

/-- How one handlePolicyUrlsResolved run ends (which branch of background.ts
lines 265-313 produced the final state). -/
inductive ResolveOutcome
  | noUrls
  | candidateSummary (url : String)
  | shippingFallback (url : String)
  | renderedSummary (url : String)
  | doneNoSummary
  deriving DecidableEq, Repr

/-- Outcome of a resolver run plus the URLs the hidden-render fallback opened. -/
structure ResolveRun where
  outcome : ResolveOutcome
  renderedUrls : List String
  deriving DecidableEq, Repr

/-- ASCII lowercasing, as toLowerCase acts on the URL strings involved. -/
def toLowerStr (s : String) : String := String.mk (s.data.map Char.toLower)

/-- The probe result when it clears the quality gate (the guard
`result && result.quality >= MIN_REFUND_POLICY_QUALITY` of background.ts
line 274). -/
def acceptedCandidate (fetchHtml : String → Option String)
    (candidates : List String) : Option ScoredCandidate :=
  match fetchBestPolicyCandidate fetchHtml candidates with
  | some r => if r.quality ≥ MIN_REFUND_POLICY_QUALITY then some r else none
  | none => none

/-- Control flow of handlePolicyUrlsResolved (background.ts lines 253-313) on a
cache miss, with the network and hidden-render effects abstracted as functions;
the run records which URLs the hidden-render fallback actually opened. -/
def handlePolicyUrlsResolved (fetchHtml render : String → Option String)
    (refundPolicyCandidates : Option (List String)) (refundPolicy : Option String)
    (shippingPolicy : Option String) : ResolveRun :=
  let candidates := candidatesOf refundPolicyCandidates refundPolicy
  if candidates.isEmpty && shippingPolicy.isNone then ⟨.noUrls, []⟩
  else
    match acceptedCandidate fetchHtml candidates with
    | some r => ⟨.candidateSummary r.url, []⟩
    | none =>
      match candidates, shippingPolicy with
      | [], some shippingUrl => ⟨.shippingFallback shippingUrl, []⟩
      | _, _ =>
        if candidates.any (fun u => strContains (toLowerStr u) "/pages/help-center") then
          let rr := fetchBestRenderedGo render none
            (candidates.take RENDER_FALLBACK_CANDIDATE_LIMIT)
          match rr.1 with
          | some r =>
            if r.quality ≥ MIN_REFUND_POLICY_QUALITY then ⟨.renderedSummary r.url, rr.2⟩
            else ⟨.doneNoSummary, rr.2⟩
          | none => ⟨.doneNoSummary, rr.2⟩
        else ⟨.doneNoSummary, []⟩

/- ===================== Re-entrant handler race (background.ts 253-313, 26-28) ===================== -/

/-- Tab status values (types.ts TabState.status). -/
inductive TabStatus
  | idle
  | detecting
  | fetching
  | extracting
  | done
  | error
  deriving DecidableEq, Repr

/-- The per-tab state slice the resolver handler mutates (types.ts TabState;
detection is omitted as the race leaves it untouched). -/
structure RaceTabState where
  summary : Option PolicySummary
  status : TabStatus
  fromCache : Bool
  deriving DecidableEq, Repr

/-- Atomic writes one handlePolicyUrlsResolved run performs on tabStates for its
tab on the cache-miss, quality-success path (background.ts lines 262-279): set
status fetching, set status extracting, then - only after its fetch and summary
awaits resolve - write its summary with status done. Every write spreads the
then-current state, as the source does with tabStates.get. -/
def handlerWrites (summary : PolicySummary) : List (RaceTabState → RaceTabState) :=
  [fun s => { s with status := .fetching },
   fun s => { s with status := .extracting },
   fun s => { s with summary := some summary, status := .done, fromCache := false }]

/-- Interleave two pending write sequences under a schedule: `true` runs the next
write of the first (earlier) handler, `false` the next write of the second
(later) handler. Handlers suspend at each await, which is exactly where the
event loop may run the other handler. -/
def runSched : List (RaceTabState → RaceTabState) → List (RaceTabState → RaceTabState) →
    List Bool → RaceTabState → RaceTabState
  | _, _, [], s => s
  | pa, pb, c :: sch, s =>
    match c, pa, pb with
    | true, a :: pa2, _ => runSched pa2 pb sch (a s)
    | true, [], _ => runSched [] pb sch s
    | false, _, b :: pb2 => runSched pa pb2 sch (b s)
    | false, _, [] => runSched pa [] sch s

/-- Sample extracted fields used by concrete witnesses. -/
def sampleFields : PolicyFields :=
  ⟨some "30 days", none, none, none, none⟩

/-- Sample confidence record used by concrete witnesses. -/
def sampleConfidence : PolicyConfidence :=
  ⟨.high, .low, .low, .low, .low⟩

/-- Sample summary produced by an earlier notification. -/
def sampleSummaryA : PolicySummary :=
  ⟨"store.example", "https://store.example/policies/refund-policy",
   "2026-02-17T00:00:00Z", sampleFields, sampleConfidence,
   "returns accepted within 30 days"⟩

/-- Sample summary produced by a later notification for the same tab. -/
def sampleSummaryB : PolicySummary :=
  ⟨"store.example", "https://store.example/pages/return-policy",
   "2026-02-17T00:00:05Z", sampleFields, sampleConfidence,
   "all sales are final"⟩

/-- A markup page whose stripped text is too short to score (witness input). -/
def lowHtml : String := "<p>hi</p>"

/-- A page whose stripped text clears the early-termination quality bar
(witness input). -/
def highHtml : String :=
  "return refund exchange policy return refund exchange policy"

/-- Witness candidate URL probed first. -/
def urlA : String := "https://s.example/a"

/-- Witness candidate URL probed second. -/
def urlB : String := "https://s.example/b"

/-- Witness candidate URL that must never be probed. -/
def urlC : String := "https://s.example/c"

/-- Witness fetch behavior: a low-quality page at urlA, a high-quality page at
urlB, failure elsewhere. -/
def probeA : String → Option String :=
  fun u => if u = urlA then some lowHtml else if u = urlB then some highHtml else none

/-- Fetch or render behavior that always fails (witness input). -/
def probeNone : String → Option String := fun _ => none

/-- Help-center candidate URLs for the render-fallback witness. -/
def hcUrl1 : String := "https://s.example/pages/help-center?hcUrl=a"

/-- Second help-center candidate. -/
def hcUrl2 : String := "https://s.example/pages/help-center?hcUrl=b"

/-- Third help-center candidate. -/
def hcUrl3 : String := "https://s.example/pages/help-center?hcUrl=c"

/-- Fourth help-center candidate, beyond the render cap. -/
def hcUrl4 : String := "https://s.example/pages/help-center?hcUrl=d"

/- ===================== Theorems ===================== -/

/-- Claim C3: writing a summary with setCachedSummary and immediately reading it
back with getCachedSummary returns that same summary; and once now exceeds
cachedAt + ttl, a read returns nothing and removes the entry from storage, so an
expired entry is never returned. -/
theorem C3_cache_roundtrip_and_expiry
    (st st2 : Storage) (now now2 bytes : Nat) (domain : String)
    (summary : PolicySummary) (ttl : Nat) (entry : CacheEntry)
    (hfresh : now2 ≤ now + ttl)
    (hentry : st2 (CACHE_PREFIX ++ domain) = some entry)
    (hexpired : now > entry.cachedAt + entry.ttl) :
    (getCachedSummary (setCachedSummary st now bytes domain summary ttl) now2 domain).1
        = some summary
    ∧ (getCachedSummary st2 now domain).1 = none
    ∧ (getCachedSummary st2 now domain).2 (CACHE_PREFIX ++ domain) = none := by
  refine ⟨?_, ?_, ?_⟩
  · simp [getCachedSummary, setCachedSummary, Nat.not_lt.mpr hfresh]
  · simp [getCachedSummary, hentry, hexpired]
  · simp [getCachedSummary, hentry, hexpired]

/-- Witness for C3 at a concrete store, summary and clock. -/
theorem C3_cache_roundtrip_and_expiry_witness :
    (getCachedSummary
        (setCachedSummary (fun _ => none) 100 0 "store.example" sampleSummaryA 1000)
        100 "store.example").1 = some sampleSummaryA
    ∧ (getCachedSummary
        (fun k => if k = CACHE_PREFIX ++ "store.example"
          then some ⟨sampleSummaryA, 0, 5⟩ else none) 6 "store.example").1 = none
    ∧ (getCachedSummary
        (fun k => if k = CACHE_PREFIX ++ "store.example"
          then some ⟨sampleSummaryA, 0, 5⟩ else none) 6 "store.example").2
        (CACHE_PREFIX ++ "store.example") = none :=
  C3_cache_roundtrip_and_expiry (fun _ => none)
    (fun k => if k = CACHE_PREFIX ++ "store.example"
      then some ⟨sampleSummaryA, 0, 5⟩ else none)
    100 100 0 "store.example" sampleSummaryA 1000 ⟨sampleSummaryA, 0, 5⟩
    (by decide) (by simp) (by decide)

/-- Claim C5 describes the source behavior incorrectly: when two resolver
notifications for the same tab interleave so that the earlier handler is
suspended at its fetch await while the later one runs to completion, the earlier
handler resumes and unconditionally writes its stale summary over the newer
state, so the final state reflects the earlier notification, not the later one.
The schedule runs handler A through its first two writes, then handler B to
completion, then the stale third write of A. -/
theorem C5_stale_inflight_write_overwrites_newer :
    runSched (handlerWrites sampleSummaryA) (handlerWrites sampleSummaryB)
        [true, true, false, false, false, true]
        ⟨none, TabStatus.idle, false⟩
      = ⟨some sampleSummaryA, TabStatus.done, false⟩
    ∧ sampleSummaryA ≠ sampleSummaryB :=
  ⟨rfl, by decide⟩

/-- Claim C2: whenever the remote extract call fails (network error or timeout,
non-2xx status, malformed body) or yields a body without any non-empty field,
buildSummary returns exactly the local heuristic extraction of the same
compacted text; no remote failure escapes (buildSummary is total by
construction, mirroring the catch-all in the source). -/
theorem C2_remote_failure_falls_back_to_local (remote : RemoteOutcome)
    (now text policyUrl domain : String)
    (h : (∀ f c, remote ≠ RemoteOutcome.ok f c)
      ∨ ∃ f c, remote = RemoteOutcome.ok f c ∧ hasUsefulField f = false) :
    buildSummary remote now text policyUrl domain
      = extractPolicyFromText (compactPolicyTextForApi text) policyUrl domain now := by
  cases remote with
  | ok f c =>
    rcases h with h | ⟨f2, c2, heq, huse⟩
    · exact absurd rfl (h f c)
    · cases heq
      simp [buildSummary, huse]
  | netError => rfl
  | httpError s => rfl
  | malformedBody => rfl

/-- Witness for C2 at a concrete failing remote call. -/
theorem C2_remote_failure_falls_back_to_local_witness :
    buildSummary RemoteOutcome.netError "2026-02-17T00:00:00Z"
        "returns are accepted within 30 days"
        "https://store.example/policies/refund-policy" "store.example"
      = extractPolicyFromText
          (compactPolicyTextForApi "returns are accepted within 30 days")
          "https://store.example/policies/refund-policy" "store.example"
          "2026-02-17T00:00:00Z" :=
  C2_remote_failure_falls_back_to_local RemoteOutcome.netError
    "2026-02-17T00:00:00Z" "returns are accepted within 30 days"
    "https://store.example/policies/refund-policy" "store.example"
    (Or.inl (fun _ _ h => RemoteOutcome.noConfusion h))

/-- Members of a de-duplicated list come from the input and avoid the seen set. -/
theorem mem_dedupeKeepFirst {α : Type} [DecidableEq α] :
    ∀ (l seen : List α) (u : α), u ∈ dedupeKeepFirst seen l → u ∈ l ∧ u ∉ seen := by
  intro l
  induction l with
  | nil => intro seen u h; simp [dedupeKeepFirst] at h
  | cons x rest ih =>
    intro seen u h
    simp only [dedupeKeepFirst] at h
    by_cases hx : x ∈ seen
    · rw [if_pos hx] at h
      rcases ih seen u h with ⟨h1, h2⟩
      exact ⟨List.mem_cons_of_mem _ h1, h2⟩
    · rw [if_neg hx] at h
      rcases List.mem_cons.mp h with rfl | h
      · exact ⟨List.mem_cons_self _ _, hx⟩
      · rcases ih (x :: seen) u h with ⟨h1, h2⟩
        exact ⟨List.mem_cons_of_mem _ h1, fun hs => h2 (List.mem_cons_of_mem _ hs)⟩

/-- De-duplication never emits the same element twice. -/
theorem dedupeKeepFirst_nodup {α : Type} [DecidableEq α] :
    ∀ (l seen : List α), (dedupeKeepFirst seen l).Nodup := by
  intro l
  induction l with
  | nil => intro seen; simp [dedupeKeepFirst]
  | cons x rest ih =>
    intro seen
    simp only [dedupeKeepFirst]
    by_cases hx : x ∈ seen
    · rw [if_pos hx]; exact ih seen
    · rw [if_neg hx]
      refine List.nodup_cons.mpr ⟨fun hmem => ?_, ih (x :: seen)⟩
      exact (mem_dedupeKeepFirst rest (x :: seen) x hmem).2 (List.mem_cons_self _ _)

/-- De-duplication keeps elements in their input order. -/
theorem dedupeKeepFirst_sublist {α : Type} [DecidableEq α] :
    ∀ (l seen : List α), List.Sublist (dedupeKeepFirst seen l) l := by
  intro l
  induction l with
  | nil => intro seen; simp [dedupeKeepFirst]
  | cons x rest ih =>
    intro seen
    simp only [dedupeKeepFirst]
    by_cases hx : x ∈ seen
    · rw [if_pos hx]; exact (ih seen).cons x
    · rw [if_neg hx]; exact (ih (x :: seen)).cons₂ x

/-- De-duplicating a concatenation keeps the de-duplicated first part as a
prefix; the trailing part only contributes elements absent from the first part
and the seen set. -/
theorem dedupeKeepFirst_append {α : Type} [DecidableEq α] :
    ∀ (xs seen ys : List α), ∃ zs,
      dedupeKeepFirst seen (xs ++ ys) = dedupeKeepFirst seen xs ++ zs
      ∧ ∀ z ∈ zs, z ∈ ys ∧ z ∉ xs ∧ z ∉ seen := by
  intro xs
  induction xs with
  | nil =>
    intro seen ys
    refine ⟨dedupeKeepFirst seen ys, by simp [dedupeKeepFirst], ?_⟩
    intro z hz
    rcases mem_dedupeKeepFirst ys seen z hz with ⟨h1, h2⟩
    exact ⟨h1, by simp, h2⟩
  | cons x rest ih =>
    intro seen ys
    simp only [List.cons_append, dedupeKeepFirst]
    by_cases hx : x ∈ seen
    · rw [if_pos hx, if_pos hx]
      rcases ih seen ys with ⟨zs, heq, hz⟩
      refine ⟨zs, heq, fun z hzz => ?_⟩
      rcases hz z hzz with ⟨h1, h2, h3⟩
      refine ⟨h1, fun hmem => ?_, h3⟩
      rcases List.mem_cons.mp hmem with rfl | hmem
      · exact h3 hx
      · exact h2 hmem
    · rw [if_neg hx, if_neg hx]
      rcases ih (x :: seen) ys with ⟨zs, heq, hz⟩
      refine ⟨zs, by rw [List.append_eq, heq]; simp, fun z hzz => ?_⟩
      rcases hz z hzz with ⟨h1, h2, h3⟩
      have hzx : z ≠ x := fun hzx => h3 (hzx ▸ List.mem_cons_self x seen)
      refine ⟨h1, fun hmem => ?_, fun hs => h3 (List.mem_cons_of_mem _ hs)⟩
      rcases List.mem_cons.mp hmem with rfl | hmem
      · exact hzx rfl
      · exact h2 hmem

/-- Claim C9: the resolver's refund candidate list never contains two equal
URLs; de-duplication preserves first-occurrence priority order (the output is a
sublist of canonical-then-footer input); and the canonical-route candidates form
the leading segment, every later entry being a footer-derived URL that is not a
canonical-route one. -/
theorem C9_resolver_dedupes_preserving_priority (base : String)
    (footerCandidates : List String) :
    (resolveRefundCandidates base footerCandidates).Nodup
    ∧ List.Sublist (resolveRefundCandidates base footerCandidates)
        (buildCandidateUrls base ++ footerCandidates)
    ∧ ∃ zs, resolveRefundCandidates base footerCandidates
          = dedupeUrls (buildCandidateUrls base) ++ zs
        ∧ ∀ z ∈ zs, z ∈ footerCandidates ∧ z ∉ buildCandidateUrls base := by
  refine ⟨dedupeKeepFirst_nodup _ _, dedupeKeepFirst_sublist _ _, ?_⟩
  rcases dedupeKeepFirst_append (buildCandidateUrls base) [] footerCandidates with
    ⟨zs, heq, hz⟩
  exact ⟨zs, heq, fun z hzz => ⟨(hz z hzz).1, (hz z hzz).2.1⟩⟩

/-- Probe loop step: a failing fetch is skipped, the URL still being probed. -/
theorem fetchBestGo_cons_none (f : String → Option String)
    (best : Option ScoredCandidate) (url : String) (rest : List String)
    (hf : f url = none) :
    fetchBestGo f best (url :: rest)
      = ((fetchBestGo f best rest).1, url :: (fetchBestGo f best rest).2) := by
  simp [fetchBestGo, hf]

/-- Probe loop step: a fetched page scoring 8 or more returns immediately. -/
theorem fetchBestGo_cons_high (f : String → Option String)
    (best : Option ScoredCandidate) (url : String) (rest : List String)
    (html : String) (hf : f url = some html)
    (hq : (scoreFetched url html).quality ≥ 8) :
    fetchBestGo f best (url :: rest) = (some (scoreFetched url html), [url]) := by
  simp [fetchBestGo, hf, hq]

/-- Probe loop step: a fetched page under 8 updates the accumulator and
continues. -/
theorem fetchBestGo_cons_low (f : String → Option String)
    (best : Option ScoredCandidate) (url : String) (rest : List String)
    (html : String) (hf : f url = some html)
    (hq : ¬ (scoreFetched url html).quality ≥ 8) :
    fetchBestGo f best (url :: rest)
      = ((fetchBestGo f (bestUpdate best (scoreFetched url html)) rest).1,
         url :: (fetchBestGo f (bestUpdate best (scoreFetched url html)) rest).2) := by
  simp [fetchBestGo, hf, hq]

/-- The probe trace is always an in-order prefix of the candidate list. -/
theorem fetchBestGo_trace_isPrefix (f : String → Option String) :
    ∀ (l : List String) (best : Option ScoredCandidate),
      List.IsPrefix (fetchBestGo f best l).2 l := by
  intro l
  induction l with
  | nil => intro best; exact ⟨[], rfl⟩
  | cons url rest ih =>
    intro best
    cases hf : f url with
    | none =>
      rw [fetchBestGo_cons_none f best url rest hf]
      rcases ih best with ⟨t, ht⟩
      exact ⟨t, by simp [ht]⟩
    | some html =>
      by_cases hq : (scoreFetched url html).quality ≥ 8
      · rw [fetchBestGo_cons_high f best url rest html hf hq]
        exact ⟨rest, rfl⟩
      · rw [fetchBestGo_cons_low f best url rest html hf hq]
        rcases ih (bestUpdate best (scoreFetched url html)) with ⟨t, ht⟩
        exact ⟨t, by simp [ht]⟩

/-- When every earlier candidate either fails or scores under 8, the loop stops
at the first candidate clearing 8 and returns it, having probed exactly the
prefix up to and including it. -/
theorem fetchBestGo_early_exit (f : String → Option String)
    (c hc : String) (post : List String)
    (hfc : f c = some hc) (hq : (scoreFetched c hc).quality ≥ 8) :
    ∀ (pre : List String) (best : Option ScoredCandidate),
      (∀ u ∈ pre, ∀ h, f u = some h → (scoreFetched u h).quality < 8) →
      fetchBestGo f best (pre ++ c :: post) = (some (scoreFetched c hc), pre ++ [c]) := by
  intro pre
  induction pre with
  | nil =>
    intro best _
    rw [List.nil_append, fetchBestGo_cons_high f best c post hc hfc hq, List.nil_append]
  | cons u pre2 ih =>
    intro best hpre
    have hu := hpre u (List.mem_cons_self u pre2)
    have htail : ∀ v ∈ pre2, ∀ h, f v = some h → (scoreFetched v h).quality < 8 :=
      fun v hv h hfv => hpre v (List.mem_cons_of_mem _ hv) h hfv
    rw [List.cons_append]
    cases hf : f u with
    | none =>
      rw [fetchBestGo_cons_none f best u _ hf, ih best htail]
      rfl
    | some h =>
      have hlt := hu h hf
      rw [fetchBestGo_cons_low f best u _ h hf (by omega), ih _ htail]
      rfl

/-- When no candidate in the list clears 8, the loop probes every candidate and
returns the accumulated best: an actually fetched candidate whose quality bounds
every fetched quality, or the starting accumulator, or nothing when everything
failed. -/
theorem fetchBestGo_no_high (f : String → Option String) :
    ∀ (l : List String),
      (∀ u ∈ l, ∀ h, f u = some h → (scoreFetched u h).quality < 8) →
      ∀ (best : Option ScoredCandidate),
        (fetchBestGo f best l).2 = l
        ∧ ((fetchBestGo f best l).1 = none ↔ (best = none ∧ ∀ u ∈ l, f u = none))
        ∧ ∀ b, (fetchBestGo f best l).1 = some b →
            ((∃ u h, u ∈ l ∧ f u = some h ∧ b = scoreFetched u h) ∨ best = some b)
            ∧ (∀ u ∈ l, ∀ h, f u = some h → (scoreFetched u h).quality ≤ b.quality)
            ∧ (∀ x, best = some x → x.quality ≤ b.quality) := by
  intro l
  induction l with
  | nil =>
    intro _ best
    refine ⟨rfl, by simp [fetchBestGo], ?_⟩
    intro b hb
    have hb2 : best = some b := hb
    refine ⟨Or.inr hb2, by simp, ?_⟩
    intro x hx
    rw [hb2] at hx
    cases hx
    exact le_refl _
  | cons u rest ih =>
    intro hlow best
    have hu := hlow u (List.mem_cons_self u rest)
    have htail : ∀ v ∈ rest, ∀ h, f v = some h → (scoreFetched v h).quality < 8 :=
      fun v hv h hfv => hlow v (List.mem_cons_of_mem _ hv) h hfv
    cases hf : f u with
    | none =>
      rw [fetchBestGo_cons_none f best u rest hf]
      rcases ih htail best with ⟨h2, h3, h4⟩
      refine ⟨by rw [h2], ?_, ?_⟩
      · rw [h3]
        constructor
        · rintro ⟨hb, hall⟩
          exact ⟨hb, fun v hv => by
            rcases List.mem_cons.mp hv with rfl | hv
            · exact hf
            · exact hall v hv⟩
        · rintro ⟨hb, hall⟩
          exact ⟨hb, fun v hv => hall v (List.mem_cons_of_mem _ hv)⟩
      · intro b hb
        rcases h4 b hb with ⟨hsrc, hbound, hacc⟩
        refine ⟨?_, ?_, hacc⟩
        · rcases hsrc with ⟨v, h, hv, hfv, hbv⟩ | hsrc
          · exact Or.inl ⟨v, h, List.mem_cons_of_mem _ hv, hfv, hbv⟩
          · exact Or.inr hsrc
        · intro v hv h hfv
          rcases List.mem_cons.mp hv with rfl | hv
          · rw [hf] at hfv; cases hfv
          · exact hbound v hv h hfv
    | some html =>
      have hlt := hu html hf
      rw [fetchBestGo_cons_low f best u rest html hf (by omega)]
      have hbest2some : ∃ y, bestUpdate best (scoreFetched u html) = some y
          ∧ (scoreFetched u html).quality ≤ y.quality
          ∧ (y = scoreFetched u html ∨ best = some y)
          ∧ (∀ x, best = some x → x.quality ≤ y.quality) := by
        cases best with
        | none =>
          exact ⟨scoreFetched u html, rfl, le_refl _, Or.inl rfl, by intro x hx; cases hx⟩
        | some bb =>
          by_cases hgt : (scoreFetched u html).quality > bb.quality
          · refine ⟨scoreFetched u html, by simp [bestUpdate, hgt], le_refl _,
              Or.inl rfl, ?_⟩
            intro x hx
            cases hx
            omega
          · refine ⟨bb, by simp [bestUpdate, hgt], by omega, Or.inr rfl, ?_⟩
            intro x hx
            cases hx
            exact le_refl _
      rcases hbest2some with ⟨y, hy, hcy, hysrc, hyacc⟩
      rcases ih htail (bestUpdate best (scoreFetched u html)) with ⟨h2, h3, h4⟩
      refine ⟨by rw [h2], ?_, ?_⟩
      · rw [h3, hy]
        constructor
        · rintro ⟨hcontra, -⟩
          cases hcontra
        · rintro ⟨-, hall⟩
          have := hall u (List.mem_cons_self u rest)
          rw [hf] at this
          cases this
      · intro b hb
        rcases h4 b hb with ⟨hsrc, hbound, hacc⟩
        have hyb : y.quality ≤ b.quality := hacc y hy
        refine ⟨?_, ?_, ?_⟩
        · rcases hsrc with ⟨v, h, hv, hfv, hbv⟩ | hsrc
          · exact Or.inl ⟨v, h, List.mem_cons_of_mem _ hv, hfv, hbv⟩
          · rw [hy] at hsrc
            cases hsrc
            rcases hysrc with rfl | hysrc
            · exact Or.inl ⟨u, html, List.mem_cons_self u rest, hf, rfl⟩
            · exact Or.inr hysrc
        · intro v hv h hfv
          rcases List.mem_cons.mp hv with rfl | hv
          · rw [hf] at hfv
            cases hfv
            exact le_trans hcy hyb
          · exact hbound v hv h hfv
        · intro x hx
          exact le_trans (hyacc x hx) hyb

/-- Claim C1: the candidate probe walks the list in order and stops at the first
candidate scoring 8 or more, returning it without probing any later candidate
(the trace is exactly the prefix through that candidate, and in general the
trace is an in-order prefix of the list, so no candidate is ever probed twice);
when no candidate reaches 8, every candidate is probed and the best-scoring
fetched candidate is returned, which is none exactly when every fetch failed. -/
theorem C1_candidate_probe_early_termination_and_best
    (f : String → Option String) (pre post : List String) (c hc : String)
    (hfc : f c = some hc) (hq : (scoreFetched c hc).quality ≥ 8)
    (hpre : ∀ u ∈ pre, ∀ h, f u = some h → (scoreFetched u h).quality < 8) :
    (fetchBestPolicyCandidate f (pre ++ c :: post) = some (scoreFetched c hc)
      ∧ fetchBestTrace f (pre ++ c :: post) = pre ++ [c])
    ∧ (∀ cs, List.IsPrefix (fetchBestTrace f cs) cs)
    ∧ ∀ cs, (∀ u ∈ cs, ∀ h, f u = some h → (scoreFetched u h).quality < 8) →
        fetchBestTrace f cs = cs
        ∧ (fetchBestPolicyCandidate f cs = none ↔ ∀ u ∈ cs, f u = none)
        ∧ ∀ b, fetchBestPolicyCandidate f cs = some b →
            (∃ u h, u ∈ cs ∧ f u = some h ∧ b = scoreFetched u h)
            ∧ ∀ u ∈ cs, ∀ h, f u = some h → (scoreFetched u h).quality ≤ b.quality := by
  have hearly := fetchBestGo_early_exit f c hc post hfc hq pre none hpre
  refine ⟨⟨?_, ?_⟩, ?_, ?_⟩
  · rw [fetchBestPolicyCandidate, hearly]
  · rw [fetchBestTrace, hearly]
  · intro cs
    exact fetchBestGo_trace_isPrefix f cs none
  · intro cs hlow
    rcases fetchBestGo_no_high f cs hlow none with ⟨h2, h3, h4⟩
    refine ⟨h2, by rw [fetchBestPolicyCandidate, h3]; simp, ?_⟩
    intro b hb
    rcases h4 b hb with ⟨hsrc, hbound, -⟩
    rcases hsrc with hsrc | hsrc
    · exact ⟨hsrc, hbound⟩
    · cases hsrc

/-- Witness for C1: with a failing first candidate page and a high-quality
second page, the probe returns the second candidate and never touches the
third. -/
theorem C1_candidate_probe_early_termination_and_best_witness :
    fetchBestPolicyCandidate probeA [urlA, urlB, urlC] = some (scoreFetched urlB highHtml)
    ∧ fetchBestTrace probeA [urlA, urlB, urlC] = [urlA] ++ [urlB] :=
  (C1_candidate_probe_early_termination_and_best probeA [urlA] [urlC] urlB highHtml
    (by decide) (by decide)
    (by
      intro u hu h hf
      have hu2 : u = urlA := by simpa using hu
      subst hu2
      have h2 : probeA urlA = some lowHtml := by decide
      rw [h2] at hf
      injection hf with hh
      subst hh
      decide)).1

/-- The hidden-render trace is always an in-order prefix of its candidate
list. -/
theorem fetchBestRenderedGo_trace_isPrefix (r : String → Option String) :
    ∀ (l : List String) (best : Option RenderedCandidate),
      List.IsPrefix (fetchBestRenderedGo r best l).2 l := by
  intro l
  induction l with
  | nil => intro best; exact ⟨[], rfl⟩
  | cons url rest ih =>
    intro best
    cases hf : r url with
    | none =>
      have hstep : fetchBestRenderedGo r best (url :: rest)
          = ((fetchBestRenderedGo r best rest).1,
             url :: (fetchBestRenderedGo r best rest).2) := by
        simp [fetchBestRenderedGo, hf]
      rw [hstep]
      rcases ih best with ⟨t, ht⟩
      exact ⟨t, by simp [ht]⟩
    | some txt =>
      by_cases hemp : txt.isEmpty
      · have hstep : fetchBestRenderedGo r best (url :: rest)
            = ((fetchBestRenderedGo r best rest).1,
               url :: (fetchBestRenderedGo r best rest).2) := by
          simp [fetchBestRenderedGo, hf, hemp]
        rw [hstep]
        rcases ih best with ⟨t, ht⟩
        exact ⟨t, by simp [ht]⟩
      · by_cases hq : scorePolicyTextQuality (compactPolicyTextForApi txt) ≥ 8
        · have hstep : fetchBestRenderedGo r best (url :: rest)
              = (some ⟨url, txt, scorePolicyTextQuality (compactPolicyTextForApi txt)⟩,
                 [url]) := by
            simp [fetchBestRenderedGo, hf, hemp, hq]
          rw [hstep]
          exact ⟨rest, rfl⟩
        · have hstep : fetchBestRenderedGo r best (url :: rest)
              = ((fetchBestRenderedGo r (renderedBestUpdate best
                    ⟨url, txt, scorePolicyTextQuality (compactPolicyTextForApi txt)⟩) rest).1,
                 url :: (fetchBestRenderedGo r (renderedBestUpdate best
                    ⟨url, txt, scorePolicyTextQuality (compactPolicyTextForApi txt)⟩) rest).2) := by
            simp [fetchBestRenderedGo, hf, hemp, hq]
          rw [hstep]
          rcases ih (renderedBestUpdate best
            ⟨url, txt, scorePolicyTextQuality (compactPolicyTextForApi txt)⟩) with ⟨t, ht⟩
          exact ⟨t, by simp [ht]⟩

/-- Exhaustive description of how a resolver run can end, tying each ending to
the facts the branch conditions guarantee. -/
theorem handlePolicyUrlsResolved_cases (f r : String → Option String)
    (rc : Option (List String)) (rp sp : Option String) :
    (handlePolicyUrlsResolved f r rc rp sp = ⟨.noUrls, []⟩
        ∧ candidatesOf rc rp = [] ∧ sp = none)
    ∨ (∃ u, handlePolicyUrlsResolved f r rc rp sp = ⟨.candidateSummary u, []⟩)
    ∨ (∃ u, handlePolicyUrlsResolved f r rc rp sp = ⟨.shippingFallback u, []⟩
        ∧ candidatesOf rc rp = [] ∧ sp = some u)
    ∨ (((∃ u, (handlePolicyUrlsResolved f r rc rp sp).outcome = .renderedSummary u)
          ∨ (handlePolicyUrlsResolved f r rc rp sp).outcome = .doneNoSummary)
        ∧ ((handlePolicyUrlsResolved f r rc rp sp).renderedUrls = []
          ∨ ((∃ u ∈ candidatesOf rc rp, strContains (toLowerStr u) "/pages/help-center" = true)
              ∧ (handlePolicyUrlsResolved f r rc rp sp).renderedUrls
                  = (fetchBestRenderedGo r none
                      ((candidatesOf rc rp).take RENDER_FALLBACK_CANDIDATE_LIMIT)).2))) := by
  simp only [handlePolicyUrlsResolved]
  by_cases h1 : ((candidatesOf rc rp).isEmpty && sp.isNone) = true
  · rw [if_pos h1]
    have ha : (candidatesOf rc rp).isEmpty = true := by
      cases hx : (candidatesOf rc rp).isEmpty with
      | true => rfl
      | false => rw [hx] at h1; simp at h1
    have hb : sp.isNone = true := by
      cases hx : sp.isNone with
      | true => rfl
      | false => rw [hx] at h1; simp at h1
    exact Or.inl ⟨rfl, by simpa using ha, by simpa using hb⟩
  · rw [if_neg h1]
    cases hg : acceptedCandidate f (candidatesOf rc rp) with
    | some rr =>
      dsimp only
      exact Or.inr (Or.inl ⟨rr.url, rfl⟩)
    | none =>
      cases hcand : candidatesOf rc rp with
      | nil =>
        cases sp with
        | some shippingUrl =>
          dsimp only
          exact Or.inr (Or.inr (Or.inl ⟨shippingUrl, rfl, rfl, rfl⟩))
        | none => simp [hcand] at h1
      | cons a as =>
        dsimp only
        by_cases h2 : ((a :: as).any
            (fun u => strContains (toLowerStr u) "/pages/help-center")) = true
        · rw [if_pos h2]
          rcases List.any_eq_true.mp h2 with ⟨u, hu, hcu⟩
          cases hrr : (fetchBestRenderedGo r none
              ((a :: as).take RENDER_FALLBACK_CANDIDATE_LIMIT)).1 with
          | some rres =>
            dsimp only
            by_cases hq : rres.quality ≥ MIN_REFUND_POLICY_QUALITY
            · rw [if_pos hq]
              exact Or.inr (Or.inr (Or.inr ⟨Or.inl ⟨rres.url, rfl⟩,
                Or.inr ⟨⟨u, hu, hcu⟩, rfl⟩⟩))
            · rw [if_neg hq]
              exact Or.inr (Or.inr (Or.inr ⟨Or.inr rfl, Or.inr ⟨⟨u, hu, hcu⟩, rfl⟩⟩))
          | none =>
            dsimp only
            exact Or.inr (Or.inr (Or.inr ⟨Or.inr rfl, Or.inr ⟨⟨u, hu, hcu⟩, rfl⟩⟩))
        · rw [if_neg h2]
          exact Or.inr (Or.inr (Or.inr ⟨Or.inr rfl, Or.inl rfl⟩))

/-- Claim C6: the shipping-policy fallback fires exactly when the refund
candidate list was empty outright and a shipping URL exists; when candidates
existed, no matter how they scored, the run never takes the shipping fallback
and ends in a candidate summary, a rendered-fallback summary, or done with no
summary. -/
theorem C6_shipping_fallback_only_on_empty_candidates
    (f r : String → Option String) (rc : Option (List String)) (rp sp : Option String) :
    (∀ u, (handlePolicyUrlsResolved f r rc rp sp).outcome = .shippingFallback u →
        candidatesOf rc rp = [] ∧ sp = some u)
    ∧ (candidatesOf rc rp ≠ [] →
        (handlePolicyUrlsResolved f r rc rp sp).outcome = .doneNoSummary
        ∨ (∃ u, (handlePolicyUrlsResolved f r rc rp sp).outcome = .candidateSummary u)
        ∨ (∃ u, (handlePolicyUrlsResolved f r rc rp sp).outcome = .renderedSummary u)) := by
  rcases handlePolicyUrlsResolved_cases f r rc rp sp with
    ⟨hrun, hc, hs⟩ | ⟨u, hrun⟩ | ⟨u, hrun, hc, hs⟩ | ⟨hout, -⟩
  · constructor
    · intro v hv
      rw [hrun] at hv
      cases hv
    · intro hne
      exact absurd hc hne
  · constructor
    · intro v hv
      rw [hrun] at hv
      cases hv
    · intro _
      exact Or.inr (Or.inl ⟨u, by rw [hrun]⟩)
  · constructor
    · intro v hv
      rw [hrun] at hv
      cases hv
      exact ⟨hc, hs⟩
    · intro hne
      exact absurd hc hne
  · constructor
    · intro v hv
      rcases hout with ⟨w, hw⟩ | hw
      · rw [hw] at hv; cases hv
      · rw [hw] at hv; cases hv
    · intro _
      rcases hout with ⟨w, hw⟩ | hw
      · exact Or.inr (Or.inr ⟨w, hw⟩)
      · exact Or.inl hw

/-- Witness for C6 at a concrete run taking the shipping fallback. -/
theorem C6_shipping_fallback_only_on_empty_candidates_witness :
    candidatesOf (some []) none = []
    ∧ some "https://s.example/policies/shipping-policy"
        = some "https://s.example/policies/shipping-policy" :=
  (C6_shipping_fallback_only_on_empty_candidates probeNone probeNone (some []) none
      (some "https://s.example/policies/shipping-policy")).1
    "https://s.example/policies/shipping-policy" (by decide)

/-- Claim C10: the hidden-render fallback renders a candidate only when some
resolved candidate URL contains /pages/help-center, and it never opens more
than the first RENDER_FALLBACK_CANDIDATE_LIMIT = 3 candidates: every rendered
URL lies in the first three of the candidate list. -/
theorem C10_render_fallback_trigger_and_cap
    (f r : String → Option String) (rc : Option (List String)) (rp sp : Option String) :
    ((handlePolicyUrlsResolved f r rc rp sp).renderedUrls ≠ [] →
        ∃ u ∈ candidatesOf rc rp, strContains (toLowerStr u) "/pages/help-center" = true)
    ∧ (handlePolicyUrlsResolved f r rc rp sp).renderedUrls.length
        ≤ RENDER_FALLBACK_CANDIDATE_LIMIT
    ∧ ∀ u ∈ (handlePolicyUrlsResolved f r rc rp sp).renderedUrls,
        u ∈ (candidatesOf rc rp).take RENDER_FALLBACK_CANDIDATE_LIMIT := by
  have hcap : ∀ tr, tr = (fetchBestRenderedGo r none
      ((candidatesOf rc rp).take RENDER_FALLBACK_CANDIDATE_LIMIT)).2 →
      tr.length ≤ RENDER_FALLBACK_CANDIDATE_LIMIT
      ∧ ∀ u ∈ tr, u ∈ (candidatesOf rc rp).take RENDER_FALLBACK_CANDIDATE_LIMIT := by
    intro tr htr
    have hpre := fetchBestRenderedGo_trace_isPrefix r
      ((candidatesOf rc rp).take RENDER_FALLBACK_CANDIDATE_LIMIT) none
    rw [← htr] at hpre
    constructor
    · exact le_trans hpre.length_le (List.length_take_le _ _)
    · exact fun u hu => hpre.subset hu
  rcases handlePolicyUrlsResolved_cases f r rc rp sp with
    ⟨hrun, -, -⟩ | ⟨u, hrun⟩ | ⟨u, hrun, -, -⟩ | ⟨-, htr⟩
  · rw [hrun]
    exact ⟨fun hne => absurd rfl hne, by simp [RENDER_FALLBACK_CANDIDATE_LIMIT], by simp⟩
  · rw [hrun]
    exact ⟨fun hne => absurd rfl hne, by simp [RENDER_FALLBACK_CANDIDATE_LIMIT], by simp⟩
  · rw [hrun]
    exact ⟨fun hne => absurd rfl hne, by simp [RENDER_FALLBACK_CANDIDATE_LIMIT], by simp⟩
  · rcases htr with htr | ⟨hhc, htr⟩
    · rw [htr]
      exact ⟨fun hne => absurd rfl hne, by simp [RENDER_FALLBACK_CANDIDATE_LIMIT], by simp⟩
    · rcases hcap _ htr with ⟨hlen, hmem⟩
      exact ⟨fun _ => hhc, hlen, hmem⟩

/-- Witness for C10 at a run whose render fallback opens exactly the first
three of four help-center candidates. -/
theorem C10_render_fallback_trigger_and_cap_witness :
    (∃ u ∈ candidatesOf (some [hcUrl1, hcUrl2, hcUrl3, hcUrl4]) none,
        strContains (toLowerStr u) "/pages/help-center" = true)
    ∧ (handlePolicyUrlsResolved probeNone probeNone
          (some [hcUrl1, hcUrl2, hcUrl3, hcUrl4]) none none).renderedUrls.length
        ≤ RENDER_FALLBACK_CANDIDATE_LIMIT
    ∧ hcUrl2 ∈ (candidatesOf (some [hcUrl1, hcUrl2, hcUrl3, hcUrl4]) none).take
        RENDER_FALLBACK_CANDIDATE_LIMIT :=
  ⟨(C10_render_fallback_trigger_and_cap probeNone probeNone
      (some [hcUrl1, hcUrl2, hcUrl3, hcUrl4]) none none).1 (by decide),
   (C10_render_fallback_trigger_and_cap probeNone probeNone
      (some [hcUrl1, hcUrl2, hcUrl3, hcUrl4]) none none).2.1,
   (C10_render_fallback_trigger_and_cap probeNone probeNone
      (some [hcUrl1, hcUrl2, hcUrl3, hcUrl4]) none none).2.2 hcUrl2 (by decide)⟩

/-- Claim C4: when a hard-negative pattern matches and no anchored duration
match exists, the return-window extractor returns the matched negative phrase at
high confidence; on the scenario text the field is the phrase "no returns" at
high while the other four fields are null at low. -/
theorem C4_hard_negative_wins_at_high :
    (∀ (lower : List Char) (hn : SMatch),
        strongestMatch lower NEGATIVE_RETURN_PATTERNS = some hn →
        durationBest (normalizeNumberWords lower) = none →
        extractReturnWindow lower = ⟨some hn.text, .high⟩)
    ∧ ∀ policyUrl storeDomain now : String,
        (extractPolicyFromText "All sales are final. No returns or exchanges."
            policyUrl storeDomain now).fields
          = ⟨some "no returns", none, none, none, none⟩
        ∧ (extractPolicyFromText "All sales are final. No returns or exchanges."
            policyUrl storeDomain now).confidence
          = ⟨.high, .low, .low, .low, .low⟩ := by
  constructor
  · intro lower hn h1 h2
    simp only [extractReturnWindow, h1, h2]
  · intro policyUrl storeDomain now
    constructor
    · dsimp only [extractPolicyFromText]
      decide
    · dsimp only [extractPolicyFromText]
      decide

/-- Witness for C4 on the scenario text, lower-cased as the extractor receives
it. -/
theorem C4_hard_negative_wins_at_high_witness :
    extractReturnWindow ("all sales are final. no returns or exchanges.".data)
      = ⟨some "no returns".data, ConfidenceLevel.high⟩ :=
  C4_hard_negative_wins_at_high.1 ("all sales are final. no returns or exchanges.".data)
    ⟨"no returns".data, 21, 4⟩ (by decide) (by decide)

/-- A null return window arises only in the final extractor branch, which
carries low confidence. -/
theorem extractReturnWindow_none_low (lower : List Char) :
    (extractReturnWindow lower).value = none →
    (extractReturnWindow lower).confidence = .low := by
  cases h1 : strongestMatch lower NEGATIVE_RETURN_PATTERNS with
  | some hn =>
    cases h2 : durationBest (normalizeNumberWords lower) with
    | some b => simp [extractReturnWindow, h1, h2]
    | none => simp [extractReturnWindow, h1, h2]
  | none =>
    cases h2 : durationBest (normalizeNumberWords lower) with
    | some b => simp [extractReturnWindow, h1, h2]
    | none =>
      cases h3 : strongestMatch lower OPEN_ENDED_PATTERNS with
      | some oe => simp [extractReturnWindow, h1, h2, h3]
      | none => simp [extractReturnWindow, h1, h2, h3]

/-- Summarizing a nonempty sentence list yields a value, as the source only
returns null on an empty list. -/
theorem summarizeSentences_cons (m : List Char) (ms : List (List Char)) (n : Nat) :
    ∃ v, summarizeSentences (m :: ms) n = some v := by
  simp [summarizeSentences]

/-- A null condition-requirements value arises only from the empty scan, which
is low. -/
theorem extractConditionRequirements_none_low (lower : List Char) :
    (extractConditionRequirements lower).value = none →
    (extractConditionRequirements lower).confidence = .low := by
  dsimp only [extractConditionRequirements]
  cases h1 : (conditionScan lower).1 with
  | nil => intro _; rfl
  | cons m ms =>
    intro h
    rcases summarizeSentences_cons m ms 2 with ⟨v, hv⟩
    dsimp only at h
    rw [hv] at h
    cases h

/-- A null fees value arises only when neither pattern family hits, which is
low. -/
theorem extractFees_none_low (lower : List Char) :
    (extractFees lower).value = none → (extractFees lower).confidence = .low := by
  cases h1 : strongestMatch lower feePatterns with
  | some x1 =>
    cases h2 : strongestMatch lower noFeePatterns with
    | some x2 => simp [extractFees, h1, h2]
    | none => simp [extractFees, h1, h2]
  | none =>
    cases h2 : strongestMatch lower noFeePatterns with
    | some x2 => simp [extractFees, h1, h2]
    | none => simp [extractFees, h1, h2]

/-- A null return-shipping value arises only when no keyword family hits, which
is low. -/
theorem extractReturnShipping_none_low (lower : List Char) :
    (extractReturnShipping lower).value = none →
    (extractReturnShipping lower).confidence = .low := by
  cases h1 : strongestMatch lower freeShippingPatterns with
  | some x1 =>
    cases h2 : strongestMatch lower sellerShippingPatterns with
    | some x2 =>
      cases h3 : strongestMatch lower customerShippingPatterns with
      | some x3 =>
        cases h4 : strongestMatch lower defectivePatterns with
        | some x4 => simp [extractReturnShipping, h1, h2, h3, h4]
        | none => simp [extractReturnShipping, h1, h2, h3, h4]
      | none => simp [extractReturnShipping, h1, h2, h3]
    | none =>
      cases h3 : strongestMatch lower customerShippingPatterns with
      | some x3 =>
        cases h4 : strongestMatch lower defectivePatterns with
        | some x4 => simp [extractReturnShipping, h1, h2, h3, h4]
        | none => simp [extractReturnShipping, h1, h2, h3, h4]
      | none => simp [extractReturnShipping, h1, h2, h3]
  | none =>
    cases h2 : strongestMatch lower sellerShippingPatterns with
    | some x2 =>
      cases h3 : strongestMatch lower customerShippingPatterns with
      | some x3 =>
        cases h4 : strongestMatch lower defectivePatterns with
        | some x4 => simp [extractReturnShipping, h1, h2, h3, h4]
        | none => simp [extractReturnShipping, h1, h2, h3, h4]
      | none => simp [extractReturnShipping, h1, h2, h3]
    | none =>
      cases h3 : strongestMatch lower customerShippingPatterns with
      | some x3 => simp [extractReturnShipping, h1, h2, h3]
      | none => simp [extractReturnShipping, h1, h2, h3]

/-- A null exclusions value arises only from the empty scan, which is low. -/
theorem extractExclusions_none_low (lower : List Char) :
    (extractExclusions lower).value = none →
    (extractExclusions lower).confidence = .low := by
  dsimp only [extractExclusions]
  cases h1 : (exclusionScan lower).1 with
  | nil => intro _; rfl
  | cons m ms =>
    intro h
    rcases summarizeSentences_cons m ms 3 with ⟨v, hv⟩
    dsimp only at h
    rw [hv] at h
    cases h

/-- Claim C7: every field key of the locally extracted summary has a matching
confidence key (both records range over the same five keys, looked up with
`get`), a null field value is never paired with high confidence, and a null
return window is paired with exactly low. -/
theorem C7_null_field_never_high (text policyUrl storeDomain now : String)
    (k : FieldKey) :
    ((extractPolicyFromText text policyUrl storeDomain now).fields.get k = none →
        (extractPolicyFromText text policyUrl storeDomain now).confidence.get k
          ≠ ConfidenceLevel.high)
    ∧ ((extractPolicyFromText text policyUrl storeDomain now).fields.returnWindow = none →
        (extractPolicyFromText text policyUrl storeDomain now).confidence.returnWindow
          = ConfidenceLevel.low) := by
  constructor
  · cases k with
    | returnWindow =>
      intro h
      dsimp only [extractPolicyFromText, PolicyFields.get, PolicyConfidence.get,
        calculateConfidence] at h ⊢
      rw [extractReturnWindow_none_low _ (Option.map_eq_none'.mp h)]
      decide
    | conditionRequirements =>
      intro h
      dsimp only [extractPolicyFromText, PolicyFields.get, PolicyConfidence.get,
        calculateConfidence] at h ⊢
      rw [extractConditionRequirements_none_low _ (Option.map_eq_none'.mp h)]
      decide
    | fees =>
      intro h
      dsimp only [extractPolicyFromText, PolicyFields.get, PolicyConfidence.get,
        calculateConfidence] at h ⊢
      rw [extractFees_none_low _ (Option.map_eq_none'.mp h)]
      decide
    | returnShipping =>
      intro h
      dsimp only [extractPolicyFromText, PolicyFields.get, PolicyConfidence.get,
        calculateConfidence] at h ⊢
      rw [extractReturnShipping_none_low _ (Option.map_eq_none'.mp h)]
      decide
    | exclusions =>
      intro h
      dsimp only [extractPolicyFromText, PolicyFields.get, PolicyConfidence.get,
        calculateConfidence] at h ⊢
      rw [extractExclusions_none_low _ (Option.map_eq_none'.mp h)]
      decide
  · intro h
    dsimp only [extractPolicyFromText, calculateConfidence] at h ⊢
    rw [extractReturnWindow_none_low _ (Option.map_eq_none'.mp h)]

/-- Witness for C7 on a text with no policy signal: the return window is null
and its confidence is exactly low. -/
theorem C7_null_field_never_high_witness :
    (extractPolicyFromText "hello there general kenobi" "u" "d" "t").fields.returnWindow
        = none
    ∧ (extractPolicyFromText "hello there general kenobi" "u" "d" "t").confidence.returnWindow
        = ConfidenceLevel.low :=
  ⟨by decide,
   (C7_null_field_never_high "hello there general kenobi" "u" "d" "t"
      FieldKey.returnWindow).2 (by decide)⟩

/-- Collapse step: a whitespace head folds into the pending run. -/
theorem collapseWsGo_cons_ws (run : Option Bool) (c : Char) (rest : List Char)
    (h : isWsChar c = true) :
    collapseWsGo run (c :: rest)
      = collapseWsGo (some (run.getD false || c = '\n')) rest := by
  simp [collapseWsGo, h]

/-- Collapse step: a non-whitespace head with no pending run is copied. -/
theorem collapseWsGo_cons_nonws_none (c : Char) (rest : List Char)
    (h : isWsChar c = false) :
    collapseWsGo none (c :: rest) = c :: collapseWsGo none rest := by
  simp [collapseWsGo, h]

/-- Collapse step: a non-whitespace head flushes the pending separator. -/
theorem collapseWsGo_cons_nonws_some (nl : Bool) (c : Char) (rest : List Char)
    (h : isWsChar c = false) :
    collapseWsGo (some nl) (c :: rest)
      = (if nl then '\n' else ' ') :: c :: collapseWsGo none rest := by
  simp [collapseWsGo, h]

/-- On a list already in collapsed shape, one collapse step over a whitespace
head is a plain copy. -/
theorem collapseWsGo_step_collapsed (c : Char) (rest : List Char)
    (hws : isWsChar c = true) (hc : c = ' ' ∨ c = '\n')
    (hh : headNonWs rest = true) :
    collapseWsGo none (c :: rest) = c :: collapseWsGo none rest := by
  have hsep : (if (none : Option Bool).getD false || c = '\n' then '\n' else ' ') = c := by
    rcases hc with rfl | rfl
    · decide
    · decide
  rw [collapseWsGo_cons_ws none c rest hws]
  cases rest with
  | nil =>
    show [if (none : Option Bool).getD false || c = '\n' then '\n' else ' ']
      = c :: collapseWsGo none []
    rw [hsep]
    rfl
  | cons d rest2 =>
    have hd : isWsChar d = false := by simpa [headNonWs] using hh
    rw [collapseWsGo_cons_nonws_some _ d rest2 hd, collapseWsGo_cons_nonws_none d rest2 hd,
      hsep]

/-- Collapsing is the identity on already-collapsed text. -/
theorem collapseWsGo_of_collapsedOK :
    ∀ l : List Char, collapsedOK l = true → collapseWsGo none l = l := by
  intro l
  induction l with
  | nil => intro _; rfl
  | cons c rest ih =>
    intro hok
    rw [collapsedOK, Bool.and_eq_true] at hok
    rcases hok with ⟨hc, hrest⟩
    by_cases hws : isWsChar c = true
    · have hc2 : ((c = ' ' || c = '\n') && headNonWs rest) = true := by
        simpa [hws] using hc
      rw [Bool.and_eq_true] at hc2
      rcases hc2 with ⟨hc3, hhead⟩
      rw [collapseWsGo_step_collapsed c rest hws (by simpa using hc3) hhead, ih hrest]
    · have hws2 : isWsChar c = false := by simpa using hws
      rw [collapseWsGo_cons_nonws_none c rest hws2, ih hrest]

/-- The output of collapsing is always in collapsed shape. -/
theorem collapsedOK_collapseWsGo :
    ∀ (l : List Char) (run : Option Bool), collapsedOK (collapseWsGo run l) = true := by
  intro l
  induction l with
  | nil =>
    intro run
    cases run with
    | none => rfl
    | some nl => cases nl <;> rfl
  | cons c rest ih =>
    intro run
    by_cases hws : isWsChar c = true
    · rw [collapseWsGo_cons_ws run c rest hws]
      exact ih _
    · have hws2 : isWsChar c = false := by simpa using hws
      cases run with
      | none =>
        rw [collapseWsGo_cons_nonws_none c rest hws2]
        simp [collapsedOK, hws2, ih none]
      | some nl =>
        rw [collapseWsGo_cons_nonws_some nl c rest hws2]
        have h1 : collapsedOK (c :: collapseWsGo none rest) = true := by
          rw [collapsedOK, Bool.and_eq_true]
          exact ⟨by simp [hws2], ih none⟩
        cases nl
        · rw [if_neg (by decide), collapsedOK, Bool.and_eq_true]
          refine ⟨?_, h1⟩
          simp [headNonWs, hws2]
        · rw [if_pos (by decide), collapsedOK, Bool.and_eq_true]
          refine ⟨?_, h1⟩
          simp [headNonWs, hws2]

/-- A prefix of collapsed text is still collapsed. -/
theorem collapsedOK_take :
    ∀ (l : List Char) (n : Nat), collapsedOK l = true → collapsedOK (l.take n) = true := by
  intro l
  induction l with
  | nil => intro n _; simp [collapsedOK]
  | cons c rest ih =>
    intro n hok
    rw [collapsedOK, Bool.and_eq_true] at hok
    rcases hok with ⟨hc, hrest⟩
    cases n with
    | zero => rfl
    | succ m =>
      rw [List.take_succ_cons, collapsedOK, Bool.and_eq_true]
      refine ⟨?_, ih m hrest⟩
      by_cases hws : isWsChar c = true
      · have hc2 : ((c = ' ' || c = '\n') && headNonWs rest) = true := by
          simpa [hws] using hc
        rw [Bool.and_eq_true] at hc2
        rcases hc2 with ⟨hc3, hhead⟩
        have hhead2 : headNonWs (rest.take m) = true := by
          cases rest with
          | nil => simp [headNonWs]
          | cons d rest2 =>
            cases m with
            | zero => simp [headNonWs]
            | succ k =>
              rw [List.take_succ_cons]
              simpa [headNonWs] using hhead
        simp [hws, hc3, hhead2]
      · have hws2 : isWsChar c = false := by simpa using hws
        simp [hws2]

/-- Every character the collapse emits is an input character or a separator. -/
theorem mem_collapseWsGo :
    ∀ (l : List Char) (run : Option Bool) (c : Char),
      c ∈ collapseWsGo run l → c ∈ l ∨ c = ' ' ∨ c = '\n' := by
  intro l
  induction l with
  | nil =>
    intro run c hc
    cases run with
    | none => cases hc
    | some nl =>
      cases nl
      · simp [collapseWsGo] at hc
        exact Or.inr (Or.inl hc)
      · simp [collapseWsGo] at hc
        exact Or.inr (Or.inr hc)
  | cons c0 rest ih =>
    intro run c hc
    by_cases hws : isWsChar c0 = true
    · rw [collapseWsGo_cons_ws run c0 rest hws] at hc
      rcases ih _ c hc with h | h
      · exact Or.inl (List.mem_cons_of_mem _ h)
      · exact Or.inr h
    · have hws2 : isWsChar c0 = false := by simpa using hws
      cases run with
      | none =>
        rw [collapseWsGo_cons_nonws_none c0 rest hws2] at hc
        rcases List.mem_cons.mp hc with rfl | hc
        · exact Or.inl (List.mem_cons_self _ _)
        · rcases ih none c hc with h | h
          · exact Or.inl (List.mem_cons_of_mem _ h)
          · exact Or.inr h
      | some nl =>
        rw [collapseWsGo_cons_nonws_some nl c0 rest hws2] at hc
        rcases List.mem_cons.mp hc with rfl | hc
        · cases nl
          · exact Or.inr (Or.inl rfl)
          · exact Or.inr (Or.inr rfl)
        · rcases List.mem_cons.mp hc with rfl | hc
          · exact Or.inl (List.mem_cons_self _ _)
          · rcases ih none c hc with h | h
            · exact Or.inl (List.mem_cons_of_mem _ h)
            · exact Or.inr h

/-- Entity decoding passes a non-ampersand head through unchanged. -/
theorem decodeEntities_cons_ne (c : Char) (rest : List Char) (hc : c ≠ '&') :
    decodeEntities (c :: rest) = c :: decodeEntities rest := by
  rw [decodeEntities.eq_def]
  split <;> simp_all

/-- Entity decoding is the identity on ampersand-free text. -/
theorem decodeEntities_id : ∀ l : List Char, '&' ∉ l → decodeEntities l = l := by
  intro l
  induction l with
  | nil => intro _; rfl
  | cons c rest ih =>
    intro hn
    have hc : c ≠ '&' := fun h => hn (h ▸ List.mem_cons_self _ _)
    have hrest : '&' ∉ rest := fun h => hn (List.mem_cons_of_mem _ h)
    rw [decodeEntities_cons_ne c rest hc, ih hrest]

/-- Tag stripping is the identity on text with no opening angle bracket. -/
theorem stripTagsGo_id :
    ∀ (l : List Char) (fuel : Nat), '<' ∉ l → l.length ≤ fuel →
      stripTagsGo fuel .txt l = l := by
  intro l
  induction l with
  | nil =>
    intro fuel _ _
    cases fuel with
    | zero => rfl
    | succ m => rfl
  | cons c rest ih =>
    intro fuel hn hlen
    have hc : c ≠ '<' := fun h => hn (h ▸ List.mem_cons_self _ _)
    have hrest : '<' ∉ rest := fun h => hn (List.mem_cons_of_mem _ h)
    cases fuel with
    | zero => simp at hlen
    | succ m =>
      have hstep : stripTagsGo (m + 1) .txt (c :: rest) = c :: stripTagsGo m .txt rest := by
        simp [stripTagsGo, hc]
      have hlen2 : rest.length ≤ m := by
        simp only [List.length_cons] at hlen
        omega
      rw [hstep, ih m hrest hlen2]

/-- Claim C8 as stated is false on the code: entity decoding can re-expose an
entity, so normalizing the normalized text changes it again. The counterexample
&amp;amp; normalizes once to &amp; and a second time to a bare ampersand. -/
theorem C8_counterexample_double_decode :
    stripHtmlToText (stripHtmlToText "&amp;amp;") ≠ stripHtmlToText "&amp;amp;" := by
  decide

/-- Every character the tag stripper emits is either an input character other
than an opening angle bracket (copied in text mode) or a block separator, so
stripped text never contains an opening angle bracket. -/
theorem mem_stripTagsGo :
    ∀ (fuel : Nat) (mode : StripMode) (l : List Char) (c : Char),
      c ∈ stripTagsGo fuel mode l → (c ∈ l ∧ c ≠ '<') ∨ c = ' ' ∨ c = '\n' := by
  intro fuel
  induction fuel with
  | zero =>
    intro mode l c hc
    simp [stripTagsGo] at hc
  | succ m ih =>
    intro mode l c hc
    cases l with
    | nil => simp [stripTagsGo] at hc
    | cons c0 rest =>
      cases mode with
      | txt =>
        by_cases h0 : c0 = '<'
        · rw [show stripTagsGo (m + 1) .txt (c0 :: rest)
              = stripTagsGo m (.tag [] false) rest from by simp [stripTagsGo, h0]] at hc
          rcases ih _ _ _ hc with ⟨h1, h2⟩ | h
          · exact Or.inl ⟨List.mem_cons_of_mem _ h1, h2⟩
          · exact Or.inr h
        · rw [show stripTagsGo (m + 1) .txt (c0 :: rest)
              = c0 :: stripTagsGo m .txt rest from by simp [stripTagsGo, h0]] at hc
          rcases List.mem_cons.mp hc with rfl | hc
          · exact Or.inl ⟨List.mem_cons_self _ _, h0⟩
          · rcases ih _ _ _ hc with ⟨h1, h2⟩ | h
            · exact Or.inl ⟨List.mem_cons_of_mem _ h1, h2⟩
            · exact Or.inr h
      | tag name nameDone =>
        by_cases h0 : c0 = '>'
        · by_cases hraw : ((tagCore name = name : Bool) && rawTags.contains name) = true
          · rw [show stripTagsGo (m + 1) (.tag name nameDone) (c0 :: rest)
                = stripTagsGo m (.raw (closeTagFor name)) rest from by
                  subst h0
                  simp only [stripTagsGo]
                  rw [if_pos trivial, if_pos hraw]] at hc
            rcases ih _ _ _ hc with ⟨h1, h2⟩ | h
            · exact Or.inl ⟨List.mem_cons_of_mem _ h1, h2⟩
            · exact Or.inr h
          · rw [show stripTagsGo (m + 1) (.tag name nameDone) (c0 :: rest)
                = (if blockTags.contains (tagCore name) then '\n' else ' ')
                    :: stripTagsGo m .txt rest from by
                  subst h0
                  simp only [stripTagsGo]
                  rw [if_pos trivial, if_neg hraw]] at hc
            rcases List.mem_cons.mp hc with rfl | hc
            · by_cases hb : blockTags.contains (tagCore name) = true
              · rw [if_pos hb]
                exact Or.inr (Or.inr rfl)
              · rw [if_neg hb]
                exact Or.inr (Or.inl rfl)
            · rcases ih _ _ _ hc with ⟨h1, h2⟩ | h
              · exact Or.inl ⟨List.mem_cons_of_mem _ h1, h2⟩
              · exact Or.inr h
        · by_cases h1 : (!nameDone && (isTagNameChar c0 || c0 = '/')) = true
          · rw [show stripTagsGo (m + 1) (.tag name nameDone) (c0 :: rest)
                = stripTagsGo m (.tag (name ++ [c0]) false) rest from by
                  simp [stripTagsGo, h0, h1]] at hc
            rcases ih _ _ _ hc with ⟨h2, h3⟩ | h
            · exact Or.inl ⟨List.mem_cons_of_mem _ h2, h3⟩
            · exact Or.inr h
          · rw [show stripTagsGo (m + 1) (.tag name nameDone) (c0 :: rest)
                = stripTagsGo m (.tag name true) rest from by
                  simp [stripTagsGo, h0, h1]] at hc
            rcases ih _ _ _ hc with ⟨h2, h3⟩ | h
            · exact Or.inl ⟨List.mem_cons_of_mem _ h2, h3⟩
            · exact Or.inr h
      | raw ct =>
        by_cases h0 : ct.isPrefixOf (c0 :: rest) = true
        · rw [show stripTagsGo (m + 1) (.raw ct) (c0 :: rest)
              = stripTagsGo m (.tag (ct.drop 1) true) ((c0 :: rest).drop ct.length) from by
                simp [stripTagsGo, h0]] at hc
          rcases ih _ _ _ hc with ⟨h1, h2⟩ | h
          · exact Or.inl ⟨List.drop_subset _ _ h1, h2⟩
          · exact Or.inr h
        · rw [show stripTagsGo (m + 1) (.raw ct) (c0 :: rest)
              = stripTagsGo m (.raw ct) rest from by simp [stripTagsGo, h0]] at hc
          rcases ih _ _ _ hc with ⟨h1, h2⟩ | h
          · exact Or.inl ⟨List.mem_cons_of_mem _ h1, h2⟩
          · exact Or.inr h

/-- Claim C8 amended: the normalization is idempotent on every input containing
no ampersand, markup included: the stripper never emits an opening angle
bracket and never emits an ampersand it was not given, so on the second pass
tag stripping and entity decoding are the identity, whitespace collapsing is
idempotent, and the length cap is stable. Only entity decoding breaks
idempotence, as the counterexample shows. -/
theorem C8_normalization_idempotent_ampersand_free (s : String)
    (hAmp : '&' ∉ s.data) :
    stripHtmlToText (stripHtmlToText s) = stripHtmlToText s := by
  set u : List Char := stripTagsGo s.data.length .txt s.data with hu
  have humem : ∀ c ∈ u, (c ∈ s.data ∧ c ≠ '<') ∨ c = ' ' ∨ c = '\n' := by
    intro c hc
    rw [hu] at hc
    exact mem_stripTagsGo s.data.length .txt s.data c hc
  have huAmp : '&' ∉ u := by
    intro h
    rcases humem '&' h with ⟨h1, -⟩ | h2 | h2
    · exact hAmp h1
    · exact absurd h2 (by decide)
    · exact absurd h2 (by decide)
  have hstrip1 : stripTagsToText s = String.mk u := by
    rw [stripTagsToText, ← hu, decodeEntities_id _ huAmp]
  have hone : stripHtmlToText s
      = String.mk ((collapseWsGo none u).take MAX_TEXT_LENGTH) := by
    rw [stripHtmlToText, hstrip1, normalizeText, strTake]
  set t : List Char := (collapseWsGo none u).take MAX_TEXT_LENGTH with ht
  have hmem : ∀ c ∈ t, (c ∈ s.data ∧ c ≠ '<') ∨ c = ' ' ∨ c = '\n' := by
    intro c hc
    rw [ht] at hc
    rcases mem_collapseWsGo u none c (List.take_subset _ _ hc) with h | h
    · exact humem c h
    · exact Or.inr h
  have htAmp : '&' ∉ t := by
    intro h
    rcases hmem '&' h with ⟨h1, -⟩ | h2 | h2
    · exact hAmp h1
    · exact absurd h2 (by decide)
    · exact absurd h2 (by decide)
  have htLt : '<' ∉ t := by
    intro h
    rcases hmem '<' h with ⟨-, h2⟩ | h2 | h2
    · exact h2 rfl
    · exact absurd h2 (by decide)
    · exact absurd h2 (by decide)
  have hstrip2 : stripTagsToText (String.mk t) = String.mk t := by
    rw [stripTagsToText]
    rw [show (String.mk t).data = t from rfl]
    rw [stripTagsGo_id t t.length htLt (le_refl _), decodeEntities_id t htAmp]
  have hcol : collapseWsGo none t = t := by
    refine collapseWsGo_of_collapsedOK _ ?_
    rw [ht]
    exact collapsedOK_take _ _ (collapsedOK_collapseWsGo u none)
  have htake : t.take MAX_TEXT_LENGTH = t := by
    rw [ht, List.take_take]
    simp
  rw [hone, stripHtmlToText, hstrip2, normalizeText]
  rw [show (String.mk t).data = t from rfl]
  rw [hcol, strTake]
  rw [show (String.mk t).data = t from rfl]
  rw [htake]

/-- Witness for the amended C8 at a concrete ampersand-free markup input. -/
theorem C8_normalization_idempotent_ampersand_free_witness :
    stripHtmlToText (stripHtmlToText "<p>hello   world</p>")
      = stripHtmlToText "<p>hello   world</p>" :=
  C8_normalization_idempotent_ampersand_free "<p>hello   world</p>" (by decide)

end PolicyCheck
